import Mathlib

/-!
# LC-3 style virtual machine

A shallow embedding of `src/main.cpp`.  Every `uint16_t` is a natural number
kept below `65536`; every place where the C++ code converts a wider value to
`uint16_t` is an explicit `u16` (reduction modulo `2 ^ 16`).  The two global
arrays `memory` and `reg` are functions from indices to words, the console is
a record of answer streams, and the fetch/decode/execute loop is a function
from machine states to outcomes.
-/

namespace LC3

/-! ## Constants of the source -/

/-- The number of words of the address space: `MEMORY_MAX = 1 << 16`. -/
def MEMORY_MAX : Nat := 65536

def R_R0 : Nat := 0
def R_R1 : Nat := 1
def R_R2 : Nat := 2
def R_R3 : Nat := 3
def R_R4 : Nat := 4
def R_R5 : Nat := 5
def R_R6 : Nat := 6
def R_R7 : Nat := 7
def R_PC : Nat := 8
def R_COND : Nat := 9
def R_COUNT : Nat := 10

def OP_BR : Nat := 0
def OP_ADD : Nat := 1
def OP_LD : Nat := 2
def OP_ST : Nat := 3
def OP_JSR : Nat := 4
def OP_AND : Nat := 5
def OP_LDR : Nat := 6
def OP_STR : Nat := 7
def OP_RTI : Nat := 8
def OP_NOT : Nat := 9
def OP_LDI : Nat := 10
def OP_STI : Nat := 11
def OP_JMP : Nat := 12
def OP_RES : Nat := 13
def OP_LEA : Nat := 14
def OP_TRAP : Nat := 15

/-- The flag `FL_POS = 1 << 0`. -/
def FL_POS : Nat := 1
/-- The flag `FL_ZRO = 1 << 1`. -/
def FL_ZRO : Nat := 2
/-- The flag `FL_NEG = 1 << 2`. -/
def FL_NEG : Nat := 4

def TRAP_GETC : Nat := 0x20
def TRAP_OUT : Nat := 0x21
def TRAP_PUTS : Nat := 0x22
def TRAP_IN : Nat := 0x23
def TRAP_PUTSP : Nat := 0x24
def TRAP_HALT : Nat := 0x25

/-- The keyboard status register. -/
def MR_KBSR : Nat := 0xFE00
/-- The keyboard data register. -/
def MR_KBDR : Nat := 0xFE02

/-- The start address `PC_START` set by `main`. -/
def PC_START : Nat := 0x3000

/-! ## Machine words -/

/-- Conversion of a non-negative value to `uint16_t`. -/
def u16 (n : Nat) : Nat := n % 65536

/-- Conversion of a (possibly negative) `int` to `uint16_t`. -/
def u16_of_int (i : Int) : Nat := (i % 65536).toNat

/-- Conversion of an `int` to `char`, then to `unsigned char`: the low byte. -/
def u8_of_int (i : Int) : Nat := (i % 256).toNat

/-- The function `sign_extend`: when bit `bit_count - 1` of `x` is set, the
`int` constant `0xFFFF << bit_count` is or-ed in and the result is stored back
into the `uint16_t` variable `x`. -/
def sign_extend (x : Nat) (bit_count : Nat) : Nat :=
  if (x >>> (bit_count - 1)) &&& 1 ≠ 0 then u16 (x ||| (0xFFFF <<< bit_count)) else x

/-- The function `swap16`. -/
def swap16 (x : Nat) : Nat := u16 ((x <<< 8) ||| (x >>> 8))

/-! ## Machine state -/

/-- The console the machine talks to.  The `n`-th call of each operating
system routine returns the `n`-th entry of its stream:
`wait_signalled n` says whether `WaitForSingleObject(hStdin, 1000)` returned
`WAIT_OBJECT_0`, and `kbhit`, `getch`, `getchar` are the `int` results of
`_kbhit()`, `_getch()` and `getchar()`. -/
structure Console where
  wait_signalled : Nat → Bool
  kbhit : Nat → Int
  getch : Nat → Int
  getchar : Nat → Int

/-- The state of the process: the global arrays `memory` and `reg`, the bytes
written to `std::cout` so far, the number of calls made so far to
`check_key`, `_getch` and `getchar`, and the local variable `running` of
`main` (an `int` that only ever holds `1` or `0`). -/
structure VM where
  memory : Nat → Nat
  reg : Nat → Nat
  output : List Nat
  polls : Nat
  keys : Nat
  chars : Nat
  running : Bool

/-- An array with the cell `i` overwritten by `v`. -/
def write (f : Nat → Nat) (i v : Nat) : Nat → Nat :=
  fun j => if j = i then v else f j

/-- The assignment `reg[r] = v`. -/
def set_reg (s : VM) (r v : Nat) : VM :=
  { s with reg := write s.reg r v }

/-- Every cell of the array `memory` (indices below `MEMORY_MAX`) and of the
array `reg` (indices below `R_COUNT`) is a `uint16_t`. -/
def WF (s : VM) : Prop :=
  (∀ a, a < MEMORY_MAX → s.memory a < 65536) ∧ (∀ r, r < R_COUNT → s.reg r < 65536)

/-- The function `update_flags`. -/
def update_flags (s : VM) (r : Nat) : VM :=
  if s.reg r = 0 then
    set_reg s R_COND FL_ZRO
  else if s.reg r >>> 15 ≠ 0 then
    set_reg s R_COND FL_NEG
  else
    set_reg s R_COND FL_POS

/-- The function `check_key`, at the `n`-th poll: the `bool` result of
`WaitForSingleObject(hStdin, 1000) == WAIT_OBJECT_0 && _kbhit()` converted to
`uint16_t`. -/
def check_key (con : Console) (n : Nat) : Nat :=
  if con.wait_signalled n && con.kbhit n != 0 then 1 else 0

/-- The function `mem_write`. -/
def mem_write (s : VM) (address val : Nat) : VM :=
  { s with memory := write s.memory address val }

/-- The function `mem_read`: the word read and the state after the read. -/
def mem_read (con : Console) (s : VM) (address : Nat) : Nat × VM :=
  if address = MR_KBSR then
    if check_key con s.polls ≠ 0 then
      let s1 := { s with polls := s.polls + 1 }
      let s2 := { s1 with memory := write s1.memory MR_KBSR (1 <<< 15) }
      let s3 := { s2 with memory := write s2.memory MR_KBDR (u16_of_int (con.getch s2.keys)),
                          keys := s2.keys + 1 }
      (s3.memory address, s3)
    else
      let s1 := { s with polls := s.polls + 1 }
      let s2 := { s1 with memory := write s1.memory MR_KBSR 0 }
      (s2.memory address, s2)
  else
    (s.memory address, s)

/-! ## The image loader -/

/-- The `uint16_t` values that `file.read` lays into the buffer from a stream
of bytes: two bytes per word, the first byte in the low half, as the
little-endian hosts of `Windows.h` store them.  A last odd byte completes no
word (`gcount() / sizeof(uint16_t)` rounds down). -/
def buffer_words : List Nat → List Nat
  | b0 :: b1 :: rest => (b0 + 256 * b1) :: buffer_words rest
  | _ => []

/-- The copy loop of `read_image_file`: each buffer word is byte-swapped and
stored through the pointer `p`, which then moves on. -/
def load_loop (memory : Nat → Nat) : Nat → List Nat → (Nat → Nat)
  | _, [] => memory
  | p, w :: ws => load_loop (write memory p (swap16 w)) (p + 1) ws

/-- What a call of `read_image_file` ends in: `false` (the file could not be
opened), `true` with the memory it leaves, or a read of the variable `origin`
that no byte of the file ever initialised. -/
inductive Load where
  | not_open
  | loaded (memory : Nat → Nat)
  | no_origin

/-- The function `read_image_file`; `file` is `none` when the file cannot be
opened and otherwise the bytes of the file.  `max_read` is a `uint16_t`, so
`MEMORY_MAX - origin` is reduced modulo `65536`; at most `max_read` words are
read into the buffer and `read_count` of them are copied. -/
def read_image_file (file : Option (List Nat)) (memory : Nat → Nat) : Load :=
  match file with
  | none => .not_open
  | some (b0 :: b1 :: rest) =>
    let origin := swap16 (b0 + 256 * b1)
    let max_read := u16 (MEMORY_MAX - origin)
    let buffer := (buffer_words rest).take max_read
    .loaded (load_loop memory origin buffer)
  | some _ => .no_origin

/-! ## Trap routines -/

/-- The loop of `trap_puts`.  The pointer `c` is the index of a cell of
`memory` and `n` is the number of cells from `c` to the end of the array, so
`n = 0` means that `c` is one past the last cell and `*c` is a read outside the
array (`none`).  Otherwise a nonzero word is written to the output as a `char`
(its low byte) and the pointer moves on; a zero word ends the loop. -/
def trap_puts_loop (memory : Nat → Nat) : Nat → Nat → List Nat → Option (List Nat)
  | 0, _, _ => none
  | n + 1, c, out =>
    if memory c ≠ 0 then
      trap_puts_loop memory n (c + 1) (out ++ [memory c % 256])
    else
      some out

/-- The function `trap_puts`; `none` is a read past the end of `memory`. -/
def trap_puts (s : VM) : Option VM :=
  match trap_puts_loop s.memory (MEMORY_MAX - s.reg R_R0) (s.reg R_R0) s.output with
  | some out => some { s with output := out }
  | none => none

/-- The bytes one word contributes to the output of `trap_putsp`: `char1`, the
low byte, then `char2`, the word shifted right by eight as a `char`, when it
is not zero. -/
def putsp_word (w : Nat) : List Nat :=
  if (w >>> 8) % 256 ≠ 0 then [(w &&& 0xFF) % 256, (w >>> 8) % 256] else [(w &&& 0xFF) % 256]

/-- The loop of `trap_putsp`, with `c` and `n` as in `trap_puts_loop`. -/
def trap_putsp_loop (memory : Nat → Nat) : Nat → Nat → List Nat → Option (List Nat)
  | 0, _, _ => none
  | n + 1, c, out =>
    if memory c ≠ 0 then
      trap_putsp_loop memory n (c + 1) (out ++ putsp_word (memory c))
    else
      some out

/-- The function `trap_putsp`; `none` is a read past the end of `memory`. -/
def trap_putsp (s : VM) : Option VM :=
  match trap_putsp_loop s.memory (MEMORY_MAX - s.reg R_R0) (s.reg R_R0) s.output with
  | some out => some { s with output := out }
  | none => none

/-- The function `trap_getc`. -/
def trap_getc (con : Console) (s : VM) : VM :=
  update_flags { set_reg s R_R0 (u16_of_int (con.getch s.keys)) with keys := s.keys + 1 } R_R0

/-- The function `trap_out`. -/
def trap_out (s : VM) : VM :=
  { s with output := s.output ++ [s.reg R_R0 % 256] }

/-- The bytes of the prompt "Enter a character: ". -/
def in_prompt : List Nat :=
  [69, 110, 116, 101, 114, 32, 97, 32, 99, 104, 97, 114, 97, 99, 116, 101, 114, 58, 32]

/-- The function `trap_in`. -/
def trap_in (con : Console) (s : VM) : VM :=
  let c := u8_of_int (con.getchar s.chars)
  let s1 := { s with output := s.output ++ in_prompt, chars := s.chars + 1 }
  let s2 := { s1 with output := s1.output ++ [c] }
  update_flags (set_reg s2 R_R0 (u16 c)) R_R0

/-- The bytes of "HALT" followed by the line end of `std::endl`. -/
def halt_message : List Nat := [72, 65, 76, 84, 10]

/-! ## The fetch / decode / execute loop -/

/-- What one pass through the body of the `while (running)` loop ends in: the
`switch` is left by a `break` (`next`, the loop then tests `running` again),
the process is ended by `std::abort()`, or a string trap reads past the end of
the `memory` array. -/
inductive Outcome where
  | next (s : VM)
  | abort
  | out_of_range

/-- The fetch `mem_read(reg[R_PC]++)`: the old program counter is the address
read, and the program counter is incremented as a `uint16_t`. -/
def fetch (con : Console) (s : VM) : Nat × VM :=
  mem_read con (set_reg s R_PC (u16 (s.reg R_PC + 1))) (s.reg R_PC)

/-- The `switch (op)` of `main`, for the fetched word `instr`. -/
def execute (con : Console) (s : VM) (instr : Nat) : Outcome :=
  let op := instr >>> 12
  if op = OP_ADD then
    let r0 := (instr >>> 9) &&& 0x7
    let r1 := (instr >>> 6) &&& 0x7
    let imm_flag := (instr >>> 5) &&& 0x1
    if imm_flag ≠ 0 then
      let imm5 := sign_extend (instr &&& 0x1F) 5
      .next (update_flags (set_reg s r0 (u16 (s.reg r1 + imm5))) r0)
    else
      let r2 := instr &&& 0x7
      .next (update_flags (set_reg s r0 (u16 (s.reg r1 + s.reg r2))) r0)
  else if op = OP_AND then
    let r0 := (instr >>> 9) &&& 0x7
    let r1 := (instr >>> 6) &&& 0x7
    let imm_flag := (instr >>> 5) &&& 0x1
    if imm_flag ≠ 0 then
      let imm5 := sign_extend (instr &&& 0x1F) 5
      .next (update_flags (set_reg s r0 (u16 (s.reg r1 &&& imm5))) r0)
    else
      let r2 := instr &&& 0x7
      .next (update_flags (set_reg s r0 (u16 (s.reg r1 &&& s.reg r2))) r0)
  else if op = OP_NOT then
    let r0 := (instr >>> 9) &&& 0x7
    let r1 := (instr >>> 6) &&& 0x7
    .next (update_flags (set_reg s r0 (u16_of_int (~~~ (s.reg r1 : Int)))) r0)
  else if op = OP_BR then
    let pc_offset := sign_extend (instr &&& 0x1FF) 9
    let cond_flag := (instr >>> 9) &&& 0x7
    if cond_flag &&& s.reg R_COND ≠ 0 then
      .next (set_reg s R_PC (u16 (s.reg R_PC + pc_offset)))
    else
      .next s
  else if op = OP_JMP then
    let r1 := (instr >>> 6) &&& 0x7
    .next (set_reg s R_PC (s.reg r1))
  else if op = OP_JSR then
    let long_flag := (instr >>> 11) &&& 1
    let s1 := set_reg s R_R7 (s.reg R_PC)
    if long_flag ≠ 0 then
      let long_pc_offset := sign_extend (instr &&& 0x7FF) 11
      .next (set_reg s1 R_PC (u16 (s1.reg R_PC + long_pc_offset)))
    else
      let r1 := (instr >>> 6) &&& 0x7
      .next (set_reg s1 R_PC (s1.reg r1))
  else if op = OP_LD then
    let r0 := (instr >>> 9) &&& 0x7
    let pc_offset := sign_extend (instr &&& 0x1FF) 9
    let m := mem_read con s (u16 (s.reg R_PC + pc_offset))
    .next (update_flags (set_reg m.2 r0 m.1) r0)
  else if op = OP_LDI then
    let r0 := (instr >>> 9) &&& 0x7
    let pc_offset := sign_extend (instr &&& 0x1FF) 9
    let m1 := mem_read con s (u16 (s.reg R_PC + pc_offset))
    let m2 := mem_read con m1.2 m1.1
    .next (update_flags (set_reg m2.2 r0 m2.1) r0)
  else if op = OP_LDR then
    let r0 := (instr >>> 9) &&& 0x7
    let r1 := (instr >>> 6) &&& 0x7
    let offset := sign_extend (instr &&& 0x3F) 6
    let m := mem_read con s (u16 (s.reg r1 + offset))
    .next (update_flags (set_reg m.2 r0 m.1) r0)
  else if op = OP_LEA then
    let r0 := (instr >>> 9) &&& 0x7
    let pc_offset := sign_extend (instr &&& 0x1FF) 9
    .next (update_flags (set_reg s r0 (u16 (s.reg R_PC + pc_offset))) r0)
  else if op = OP_ST then
    let r0 := (instr >>> 9) &&& 0x7
    let pc_offset := sign_extend (instr &&& 0x1FF) 9
    .next (mem_write s (u16 (s.reg R_PC + pc_offset)) (s.reg r0))
  else if op = OP_STI then
    let r0 := (instr >>> 9) &&& 0x7
    let pc_offset := sign_extend (instr &&& 0x1FF) 9
    let m := mem_read con s (u16 (s.reg R_PC + pc_offset))
    .next (mem_write m.2 m.1 (m.2.reg r0))
  else if op = OP_STR then
    let r0 := (instr >>> 9) &&& 0x7
    let r1 := (instr >>> 6) &&& 0x7
    let offset := sign_extend (instr &&& 0x3F) 6
    .next (mem_write s (u16 (s.reg r1 + offset)) (s.reg r0))
  else if op = OP_TRAP then
    let s1 := set_reg s R_R7 (s.reg R_PC)
    let vect := instr &&& 0xFF
    if vect = TRAP_GETC then
      .next (trap_getc con s1)
    else if vect = TRAP_OUT then
      .next (trap_out s1)
    else if vect = TRAP_PUTS then
      match trap_puts s1 with
      | some s2 => .next s2
      | none => .out_of_range
    else if vect = TRAP_IN then
      .next (trap_in con s1)
    else if vect = TRAP_PUTSP then
      match trap_putsp s1 with
      | some s2 => .next s2
      | none => .out_of_range
    else if vect = TRAP_HALT then
      .next { s1 with output := s1.output ++ halt_message, running := false }
    else
      .next s1
  else
    .abort

/-- One pass through the body of the `while (running)` loop of `main`. -/
def step (con : Console) (s : VM) : Outcome :=
  execute con (fetch con s).2 (fetch con s).1

/-- How the `while (running)` loop ends: it is left with `running == 0` after
`count` instructions, the process aborts, a string trap reads outside
`memory`, or the step budget given to `main_loop` is used up. -/
inductive Run where
  | exited (s : VM) (count : Nat)
  | aborted
  | out_of_range
  | out_of_fuel

/-- The `while (running)` loop of `main`, for at most `fuel` instructions;
`count` is the number of instructions executed so far. -/
def main_loop (con : Console) : Nat → VM → Nat → Run
  | 0, s, count => if s.running then .out_of_fuel else .exited s count
  | fuel + 1, s, count =>
    if s.running then
      match step con s with
      | .next s1 => main_loop con fuel s1 (count + 1)
      | .abort => .aborted
      | .out_of_range => .out_of_range
    else
      .exited s count

/-- The state in which `main` enters the loop: `reg[R_COND] = FL_ZRO`,
`reg[R_PC] = PC_START` and `running = 1`, over the loaded memory and the
present contents of the general-purpose registers. -/
def boot (memory : Nat → Nat) (reg : Nat → Nat) : VM :=
  { memory := memory
    reg := write (write reg R_COND FL_ZRO) R_PC PC_START
    output := []
    polls := 0
    keys := 0
    chars := 0
    running := true }

/-! ## Notions of the specification -/

/-- The value of the `n`-bit field `x` read as a two's-complement integer. -/
def field_value (x n : Nat) : Int :=
  if x.testBit (n - 1) then (x : Int) - 2 ^ n else (x : Int)

/-- The flag the specification assigns to a word: ZERO for `0`, NEGATIVE when
bit 15 is set, POSITIVE otherwise. -/
def sign_class (v : Nat) : Nat :=
  if v = 0 then FL_ZRO else if v.testBit 15 then FL_NEG else FL_POS

/-- The bytes the specification asks PUTSP to write for one word: the low
byte, then the high byte when it is not zero. -/
def putsp_bytes (w : Nat) : List Nat :=
  if w >>> 8 ≠ 0 then [w &&& 0xFF, w >>> 8] else [w &&& 0xFF]

/-- The bytes the specification asks PUTSP to write for a sequence of words. -/
def packed_chars : List Nat → List Nat
  | [] => []
  | w :: ws => putsp_bytes w ++ packed_chars ws

/-- The words `memory[a], memory[a+1], ..., memory[k0-1]`, in address order. -/
def words_between (memory : Nat → Nat) (a k0 : Nat) : List Nat :=
  List.map memory (List.range' a (k0 - a))

/-- The characters PUTS is asked to write for a sequence of words: the low
byte of each. -/
def low_bytes (ws : List Nat) : List Nat :=
  List.map (fun w => w % 256) ws

/-- The address `k0` holds the first zero word at or after `a`, and lies
inside the address space. -/
def first_zero (memory : Nat → Nat) (a k0 : Nat) : Prop :=
  a ≤ k0 ∧ k0 ≤ 0xFFFF ∧ memory k0 = 0 ∧ ∀ j, a ≤ j → j < k0 → memory j ≠ 0

/-- The ADD-immediate instruction word: bits 15-12 are `0001`, bits 11-9 the
destination register, bits 8-6 the source register, bit 5 is `1` and bits 4-0
the immediate field. -/
def add_imm (dst src i : Nat) : Nat :=
  0x1000 + dst * 0x200 + src * 0x40 + 0x20 + i

/-- The input provider reports a key at the `n`-th poll: the wait on the
console handle was signalled and `_kbhit()` is not zero. -/
def key_available (con : Console) (n : Nat) : Bool :=
  con.wait_signalled n && con.kbhit n != 0

/-- Exactly one of the three condition flags is the content of `COND`. -/
def cond_valid (s : VM) : Prop :=
  s.reg R_COND = FL_POS ∨ s.reg R_COND = FL_ZRO ∨ s.reg R_COND = FL_NEG

/-- The states the loop of `main` passes through when started on the loaded
`memory` and the register contents `reg`. -/
inductive Reachable (con : Console) (memory reg : Nat → Nat) : VM → Prop where
  | start : Reachable con memory reg (boot memory reg)
  | next (s s' : VM) : Reachable con memory reg s → s.running = true →
      step con s = .next s' → Reachable con memory reg s'

/-- The two bytes of a word in a memory image, high byte first. -/
def word_bytes (w : Nat) : List Nat := [w / 256, w % 256]

/-- The bytes of the payload of a memory image holding the words `ws`. -/
def payload_bytes : List Nat → List Nat
  | [] => []
  | w :: ws => word_bytes w ++ payload_bytes ws

/-- The bytes of a memory image: the origin and then the words, each as two
bytes, high byte first. -/
def image_bytes (origin : Nat) (ws : List Nat) : List Nat :=
  word_bytes origin ++ payload_bytes ws

/-! ## Concrete machines -/

/-- A console at which no key is ever ready and every read returns `0`. -/
def silent : Console :=
  { wait_signalled := fun _ => false
    kbhit := fun _ => 0
    getch := fun _ => 0
    getchar := fun _ => 0 }

/-- A memory image: the word `w` at `0x3000`, `TRAP HALT` at `0x3001`, the
address `0x4000` at `0x3002`, the number `42` at `0x4000`, the words
`H`, `i`, `0`, `X` from `0x5000` and the words `0x0041`, `0` from `0x5010`;
every other cell is zero. -/
def demo_memory (w : Nat) : Nat → Nat :=
  fun a =>
    if a = 0x3000 then w
    else if a = 0x3001 then 0xF025
    else if a = 0x3002 then 0x4000
    else if a = 0x4000 then 42
    else if a = 0x5000 then 72
    else if a = 0x5001 then 105
    else if a = 0x5003 then 88
    else if a = 0x5010 then 0x0041
    else 0

/-- The machine as `main` starts it on `demo_memory w`, with `R0 = r0` and the
other general-purpose registers zero. -/
def demo (w r0 : Nat) : VM :=
  boot (demo_memory w) (fun r => if r = 0 then r0 else 0)

/-- A console at which a key is always ready and every read returns the
letter `a`. -/
def typing : Console :=
  { wait_signalled := fun _ => true
    kbhit := fun _ => 1
    getch := fun _ => 97
    getchar := fun _ => 97 }

/-- A memory image with `TRAP PUTS` at `0x3000` and the letter `A` in the last
cell, `0xFFFF`; every other cell is zero. -/
def edge_memory : Nat → Nat :=
  fun a => if a = 0x3000 then 0xF022 else if a = 0xFFFF then 0x41 else 0

/-- The machine as `main` starts it on `edge_memory`, with `R0 = 0xFFFF`. -/
def edge : VM :=
  boot edge_memory (fun r => if r = 0 then 0xFFFF else 0)

/-! ## Sign extension -/

theorem bit_test (x k : Nat) : ((x >>> k) &&& 1 ≠ 0) ↔ x.testBit k = true := by
  rw [Nat.testBit_to_div_mod, Nat.and_one_is_mod, Nat.shiftRight_eq_div_pow]
  simp

theorem bit_test_div (x k : Nat) : x.testBit k = true ↔ x / 2 ^ k % 2 = 1 := by
  rw [Nat.testBit_to_div_mod]
  simp

theorem lor_high (x n : Nat) (hx : x < 2 ^ n) :
    x ||| (0xFFFF <<< n) = 2 ^ n * 0xFFFF + x := by
  rw [Nat.shiftLeft_eq, Nat.or_comm, Nat.mul_comm, ← Nat.mul_add_lt_is_or hx]

theorem sign_extend_of_clear (x n : Nat) (hb : x.testBit (n - 1) = false) :
    sign_extend x n = x := by
  have h : ¬ ((x >>> (n - 1)) &&& 1 ≠ 0) := by
    rw [bit_test]
    simp [hb]
  simp only [sign_extend, if_neg h]

theorem sign_extend_of_set (x n : Nat) (hx : x < 2 ^ n)
    (hb : x.testBit (n - 1) = true) :
    sign_extend x n = u16 (2 ^ n * 0xFFFF + x) := by
  have h : (x >>> (n - 1)) &&& 1 ≠ 0 := (bit_test x (n - 1)).2 hb
  simp only [sign_extend, if_pos h, lor_high x n hx]

/-- C2: for the field widths 5, 6, 9 and 11 and every field value
`x < 2 ^ n`, `sign_extend x n` is `x` when bit `n - 1` of `x` is clear and
`x + (65536 - 2 ^ n)` when it is set, which is the 16-bit two's-complement
encoding of the field read as a signed `n`-bit number; and
`sign_extend 0b10000 5 = 0xFFF0`, `sign_extend 0b01111 5 = 0x000F`. -/
theorem sign_extend_twos_complement (n x : Nat)
    (hn : n = 5 ∨ n = 6 ∨ n = 9 ∨ n = 11) (hx : x < 2 ^ n) :
    (x.testBit (n - 1) = false → sign_extend x n = x) ∧
    (x.testBit (n - 1) = true → sign_extend x n = x + (65536 - 2 ^ n)) ∧
    ((sign_extend x n : Int) = field_value x n % 65536) ∧
    sign_extend 0b10000 5 = 0xFFF0 ∧ sign_extend 0b01111 5 = 0x000F := by
  have hset : x.testBit (n - 1) = true → sign_extend x n = x + (65536 - 2 ^ n) := by
    intro hb
    rw [sign_extend_of_set x n hx hb]
    rw [bit_test_div] at hb
    rcases hn with rfl | rfl | rfl | rfl <;> simp only [u16] <;> simp at hb hx ⊢ <;> omega
  refine ⟨sign_extend_of_clear x n, hset, ?_, by decide, by decide⟩
  unfold field_value
  cases hb : x.testBit (n - 1)
  · rw [sign_extend_of_clear x n hb]
    simp only [Bool.false_eq_true, if_false]
    have : x < 65536 := by
      rcases hn with rfl | rfl | rfl | rfl <;> simp at hx <;> omega
    omega
  · rw [hset hb]
    simp only [if_true]
    have h2 : (2 : Int) ^ n = ((2 ^ n : Nat) : Int) := by push_cast; rfl
    rw [h2]
    rcases hn with rfl | rfl | rfl | rfl <;> simp at hx ⊢ <;> omega

/-- The field `0b10000` of width 5 satisfies the hypotheses of
`sign_extend_twos_complement`; it extends to `0xFFF0`. -/
theorem sign_extend_twos_complement_witness :
    (5 = 5 ∨ 5 = 6 ∨ 5 = 9 ∨ 5 = 11) ∧ 0b10000 < 2 ^ 5 ∧
    sign_extend 0b10000 5 = 0b10000 + (65536 - 2 ^ 5) :=
  ⟨by decide, by decide,
    (sign_extend_twos_complement 5 0b10000 (by decide) (by decide)).2.1 (by decide)⟩

/-! ## Elementary facts about the state operations -/

theorem and_7 (x : Nat) : x &&& 0x7 = x % 8 := Nat.and_pow_two_sub_one_eq_mod x 3

theorem and_1F (x : Nat) : x &&& 0x1F = x % 32 := Nat.and_pow_two_sub_one_eq_mod x 5

theorem and_FF (x : Nat) : x &&& 0xFF = x % 256 := Nat.and_pow_two_sub_one_eq_mod x 8

theorem field_lt (x : Nat) : x &&& 0x7 < 8 := by
  rw [and_7]
  omega

theorem field_ne_cond (x : Nat) : x &&& 0x7 ≠ R_COND := by
  have := field_lt x
  simp only [R_COND]
  omega

theorem field_ne_pc (x : Nat) : x &&& 0x7 ≠ R_PC := by
  have := field_lt x
  simp only [R_PC]
  omega

theorem u16_lt (n : Nat) : u16 n < 65536 := Nat.mod_lt _ (by decide)

theorem u16_of_int_lt (i : Int) : u16_of_int i < 65536 := by
  unfold u16_of_int
  omega

@[simp] theorem write_same (f : Nat → Nat) (i v : Nat) : write f i v i = v := by
  simp [write]

theorem write_other (f : Nat → Nat) (i v j : Nat) (h : j ≠ i) : write f i v j = f j := by
  simp [write, h]

@[simp] theorem set_reg_reg (s : VM) (r v : Nat) : (set_reg s r v).reg = write s.reg r v := rfl

@[simp] theorem set_reg_memory (s : VM) (r v : Nat) : (set_reg s r v).memory = s.memory := rfl

@[simp] theorem set_reg_output (s : VM) (r v : Nat) : (set_reg s r v).output = s.output := rfl

@[simp] theorem set_reg_polls (s : VM) (r v : Nat) : (set_reg s r v).polls = s.polls := rfl

@[simp] theorem set_reg_keys (s : VM) (r v : Nat) : (set_reg s r v).keys = s.keys := rfl

@[simp] theorem set_reg_chars (s : VM) (r v : Nat) : (set_reg s r v).chars = s.chars := rfl

@[simp] theorem set_reg_running (s : VM) (r v : Nat) : (set_reg s r v).running = s.running := rfl

/-- The state `update_flags` returns is the argument with `reg[R_COND]`
overwritten. -/
theorem update_flags_eq (s : VM) (r : Nat) :
    update_flags s r = set_reg s R_COND
      (if s.reg r = 0 then FL_ZRO else if s.reg r >>> 15 ≠ 0 then FL_NEG else FL_POS) := by
  unfold update_flags
  split_ifs <;> rfl

theorem update_flags_reg (s : VM) (r j : Nat) (hj : j ≠ R_COND) :
    (update_flags s r).reg j = s.reg j := by
  rw [update_flags_eq, set_reg_reg, write_other _ _ _ _ hj]

@[simp] theorem update_flags_running (s : VM) (r : Nat) :
    (update_flags s r).running = s.running := by
  rw [update_flags_eq, set_reg_running]

@[simp] theorem update_flags_memory (s : VM) (r : Nat) :
    (update_flags s r).memory = s.memory := by
  rw [update_flags_eq, set_reg_memory]

@[simp] theorem mem_read_reg (con : Console) (s : VM) (a : Nat) :
    (mem_read con s a).2.reg = s.reg := by
  unfold mem_read
  split_ifs <;> rfl

@[simp] theorem mem_read_running (con : Console) (s : VM) (a : Nat) :
    (mem_read con s a).2.running = s.running := by
  unfold mem_read
  split_ifs <;> rfl

/-- Away from the keyboard status register a read returns the stored word and
leaves the state alone. -/
theorem mem_read_plain (con : Console) (s : VM) (a : Nat) (h : a ≠ MR_KBSR) :
    mem_read con s a = (s.memory a, s) := by
  simp only [mem_read, if_neg h]

@[simp] theorem fetch_reg (con : Console) (s : VM) :
    (fetch con s).2.reg = write s.reg R_PC (u16 (s.reg R_PC + 1)) := by
  simp [fetch]

@[simp] theorem fetch_running (con : Console) (s : VM) :
    (fetch con s).2.running = s.running := by
  simp [fetch]

/-- A fetch leaves the general-purpose registers and `COND` as they were. -/
theorem fetch_reg_other (con : Console) (s : VM) (j : Nat) (hj : j ≠ R_PC) :
    (fetch con s).2.reg j = s.reg j := by
  rw [fetch_reg, write_other _ _ _ _ hj]

theorem fetch_reg_pc (con : Console) (s : VM) :
    (fetch con s).2.reg R_PC = u16 (s.reg R_PC + 1) := by
  rw [fetch_reg, write_same]

/-! ## ADD -/

/-- C1: when the word fetched at PC has opcode `0001`, the step completes and
leaves `reg[dst] = (reg[src1] + operand) mod 65536`, where `dst` is bits 11-9,
`src1` is bits 8-6, and the operand is `sign_extend (bits 4-0) 5` when bit 5 is
set and `reg[bits 2-0]` otherwise; the registers on the right are those of the
state before the step, so the equation also holds when `dst` is a source. -/
theorem add_step (con : Console) (s : VM)
    (hop : (fetch con s).1 >>> 12 = OP_ADD) :
    ∃ s', step con s = .next s' ∧
      s'.reg (((fetch con s).1 >>> 9) &&& 0x7) =
        (s.reg (((fetch con s).1 >>> 6) &&& 0x7) +
          (if ((fetch con s).1 >>> 5) &&& 0x1 = 1 then sign_extend ((fetch con s).1 &&& 0x1F) 5
           else s.reg ((fetch con s).1 &&& 0x7))) % 65536 := by
  have h1 : ∀ x, (x &&& 0x1 ≠ 0) ↔ x &&& 0x1 = 1 := by
    intro x
    rw [Nat.and_one_is_mod]
    omega
  unfold step execute
  simp only [hop, if_true]
  by_cases hb : ((fetch con s).1 >>> 5) &&& 0x1 = 1
  · refine ⟨_, by rw [if_pos ((h1 _).2 hb)], ?_⟩
    rw [update_flags_reg _ _ _ (field_ne_cond _), set_reg_reg, write_same, if_pos hb,
      fetch_reg_other _ _ _ (field_ne_pc _)]
    rfl
  · refine ⟨_, by rw [if_neg (fun h => hb ((h1 _).1 h))], ?_⟩
    rw [update_flags_reg _ _ _ (field_ne_cond _), set_reg_reg, write_same, if_neg hb,
      fetch_reg_other _ _ _ (field_ne_pc _), fetch_reg_other _ _ _ (field_ne_pc _)]
    rfl

/-- The witness for C1: `ADD R1, R1, #1` (the word `0x1261`) at `0x3000`. -/
theorem add_step_witness :
    (fetch silent (demo 0x1261 0)).1 >>> 12 = OP_ADD ∧
    ∃ s', step silent (demo 0x1261 0) = .next s' ∧
      s'.reg (((fetch silent (demo 0x1261 0)).1 >>> 9) &&& 0x7) =
        ((demo 0x1261 0).reg (((fetch silent (demo 0x1261 0)).1 >>> 6) &&& 0x7) +
          (if ((fetch silent (demo 0x1261 0)).1 >>> 5) &&& 0x1 = 1 then
            sign_extend ((fetch silent (demo 0x1261 0)).1 &&& 0x1F) 5
           else (demo 0x1261 0).reg ((fetch silent (demo 0x1261 0)).1 &&& 0x7))) % 65536 :=
  ⟨by decide, add_step silent (demo 0x1261 0) (by decide)⟩

/-! ## Reserved opcodes -/

/-- C9: when the word fetched at PC has opcode `1101` (RES) or `1000` (RTI),
the step ends in `std::abort()`, whatever the other twelve bits, the registers
and the memory are; a running loop therefore ends aborted, neither continuing
nor leaving normally. -/
theorem reserved_aborts (con : Console) (s : VM)
    (hop : (fetch con s).1 >>> 12 = OP_RES ∨ (fetch con s).1 >>> 12 = OP_RTI) :
    step con s = .abort ∧
    ∀ fuel count, s.running = true → main_loop con (fuel + 1) s count = .aborted := by
  have h : step con s = .abort := by
    unfold step execute
    rcases hop with h | h <;> simp [h, OP_RES, OP_RTI, OP_ADD, OP_AND, OP_NOT, OP_BR, OP_JMP,
      OP_JSR, OP_LD, OP_LDI, OP_LDR, OP_LEA, OP_ST, OP_STI, OP_STR, OP_TRAP]
  refine ⟨h, ?_⟩
  intro fuel count hrun
  simp [main_loop, hrun, h]

/-- The witness for C9: the word `0xD000` (opcode RES) at `0x3000`. -/
theorem reserved_aborts_witness :
    ((fetch silent (demo 0xD000 0)).1 >>> 12 = OP_RES ∨
      (fetch silent (demo 0xD000 0)).1 >>> 12 = OP_RTI) ∧
    step silent (demo 0xD000 0) = .abort :=
  ⟨by decide, (reserved_aborts silent (demo 0xD000 0) (by decide)).1⟩

/-! ## BR -/

/-- C4: when the word fetched at address `p` has opcode `0000`, the step
completes with `PC = (p + 1 + sign_extend (bits 8-0) 9) mod 65536` if the mask
(bits 11-9) and `COND` have a common bit, and with `PC = (p + 1) mod 65536`
otherwise; `R0..R7` and `COND` are unchanged.  This holds for every mask and
every value of `COND`, in particular for the three flags. -/
theorem br_step (con : Console) (s : VM)
    (hop : (fetch con s).1 >>> 12 = OP_BR) :
    ∃ s', step con s = .next s' ∧
      s'.reg R_PC =
        (if (((fetch con s).1 >>> 9) &&& 0x7) &&& s.reg R_COND ≠ 0 then
          (s.reg R_PC + 1 + sign_extend ((fetch con s).1 &&& 0x1FF) 9) % 65536
         else (s.reg R_PC + 1) % 65536) ∧
      (∀ r, r < 8 → s'.reg r = s.reg r) ∧
      s'.reg R_COND = s.reg R_COND := by
  have hc : (fetch con s).2.reg R_COND = s.reg R_COND :=
    fetch_reg_other con s R_COND (by decide)
  unfold step execute
  simp only [hop, OP_BR, OP_ADD, OP_AND, OP_NOT, if_true, hc, Nat.zero_ne_one,
    (by decide : (0 : Nat) ≠ 5), (by decide : (0 : Nat) ≠ 9), if_false]
  by_cases hb : (((fetch con s).1 >>> 9) &&& 0x7) &&& s.reg R_COND ≠ 0
  · refine ⟨_, by rw [if_pos hb], ?_, ?_, ?_⟩
    · rw [set_reg_reg, write_same, if_pos hb, fetch_reg_pc]
      simp only [u16]
      omega
    · intro r hr
      have h1 : r ≠ R_PC := by simp only [R_PC]; omega
      rw [set_reg_reg, write_other _ _ _ _ h1, fetch_reg_other _ _ _ h1]
    · rw [set_reg_reg, write_other _ _ _ _ (by decide), hc]
  · refine ⟨_, by rw [if_neg hb], ?_, ?_, hc⟩
    · rw [if_neg hb, fetch_reg_pc]
      rfl
    · intro r hr
      have h1 : r ≠ R_PC := by simp only [R_PC]; omega
      rw [fetch_reg_other _ _ _ h1]

/-- The witness for C4: `BRnzp #5` (the word `0x0E05`) at `0x3000`. -/
theorem br_step_witness :
    (fetch silent (demo 0x0E05 0)).1 >>> 12 = OP_BR ∧
    ∃ s', step silent (demo 0x0E05 0) = .next s' ∧
      s'.reg R_PC =
        (if (((fetch silent (demo 0x0E05 0)).1 >>> 9) &&& 0x7) &&&
            (demo 0x0E05 0).reg R_COND ≠ 0 then
          ((demo 0x0E05 0).reg R_PC + 1 +
            sign_extend ((fetch silent (demo 0x0E05 0)).1 &&& 0x1FF) 9) % 65536
         else ((demo 0x0E05 0).reg R_PC + 1) % 65536) ∧
      (∀ r, r < 8 → s'.reg r = (demo 0x0E05 0).reg r) ∧
      s'.reg R_COND = (demo 0x0E05 0).reg R_COND :=
  ⟨by decide, br_step silent (demo 0x0E05 0) (by decide)⟩

/-! ## Condition flags -/

theorem shift15_ne_zero (v : Nat) (hv : v < 65536) : v >>> 15 ≠ 0 ↔ v.testBit 15 = true := by
  rw [bit_test_div, Nat.shiftRight_eq_div_pow]
  have : v / 2 ^ 15 < 2 := by
    rw [Nat.div_lt_iff_lt_mul (by decide)]
    omega
  omega

/-- On a `uint16_t` the flag `update_flags` stores is the sign class of the
register. -/
theorem update_flags_cond (s : VM) (r : Nat) (hv : s.reg r < 65536) :
    (update_flags s r).reg R_COND = sign_class (s.reg r) := by
  rw [update_flags_eq, set_reg_reg, write_same]
  unfold sign_class
  by_cases h0 : s.reg r = 0
  · rw [if_pos h0, if_pos h0]
  · rw [if_neg h0, if_neg h0]
    by_cases h1 : (s.reg r).testBit 15 = true
    · rw [if_pos ((shift15_ne_zero _ hv).2 h1), if_pos h1]
    · rw [if_neg (fun h => h1 ((shift15_ne_zero _ hv).1 h)), if_neg h1]

/-- The sign class is ZERO exactly for `0`, NEGATIVE exactly when bit 15 is
set, POSITIVE exactly in the remaining case, and always one of the three. -/
theorem sign_class_spec (v : Nat) :
    (sign_class v = FL_ZRO ↔ v = 0) ∧
    (sign_class v = FL_NEG ↔ v.testBit 15 = true) ∧
    (sign_class v = FL_POS ↔ (v ≠ 0 ∧ v.testBit 15 = false)) ∧
    (sign_class v = FL_POS ∨ sign_class v = FL_ZRO ∨ sign_class v = FL_NEG) := by
  unfold sign_class
  by_cases h0 : v = 0
  · subst h0
    simp [FL_ZRO, FL_NEG, FL_POS]
  · cases h1 : v.testBit 15 <;> simp [h0, FL_ZRO, FL_NEG, FL_POS]

theorem mem_read_lt (con : Console) (s : VM) (a : Nat) (ha : a < MEMORY_MAX)
    (hm : ∀ b, b < MEMORY_MAX → s.memory b < 65536) : (mem_read con s a).1 < 65536 := by
  unfold mem_read
  split_ifs with h1 h2
  · subst h1
    simp [write, MR_KBSR, MR_KBDR]
  · subst h1
    simp [write]
  · exact hm a ha

theorem mem_read_memory_lt (con : Console) (s : VM) (a : Nat)
    (hm : ∀ b, b < MEMORY_MAX → s.memory b < 65536) :
    ∀ b, b < MEMORY_MAX → (mem_read con s a).2.memory b < 65536 := by
  intro b hb
  unfold mem_read
  split_ifs with h1 h2
  · simp only [write]
    split_ifs
    · exact u16_of_int_lt _
    · decide
    · exact hm b hb
  · simp only [write]
    split_ifs
    · decide
    · exact hm b hb
  · exact hm b hb

theorem fetch_memory_lt (con : Console) (s : VM)
    (hm : ∀ b, b < MEMORY_MAX → s.memory b < 65536) :
    ∀ b, b < MEMORY_MAX → (fetch con s).2.memory b < 65536 :=
  mem_read_memory_lt con _ _ hm

/-- Each of the seven instructions that define a destination register ends by
storing a `uint16_t` in `reg[dst]` and calling `update_flags` on `dst`. -/
theorem flag_write_form (con : Console) (s : VM)
    (hm : ∀ b, b < MEMORY_MAX → s.memory b < 65536)
    (hop : (fetch con s).1 >>> 12 = OP_ADD ∨ (fetch con s).1 >>> 12 = OP_AND ∨
      (fetch con s).1 >>> 12 = OP_NOT ∨ (fetch con s).1 >>> 12 = OP_LD ∨
      (fetch con s).1 >>> 12 = OP_LDI ∨ (fetch con s).1 >>> 12 = OP_LDR ∨
      (fetch con s).1 >>> 12 = OP_LEA) :
    ∃ X v, v < 65536 ∧
      step con s = .next (update_flags (set_reg X (((fetch con s).1 >>> 9) &&& 0x7) v)
        (((fetch con s).1 >>> 9) &&& 0x7)) := by
  have hf := fetch_memory_lt con s hm
  unfold step execute
  rcases hop with h | h | h | h | h | h | h <;>
    simp only [h, OP_ADD, OP_AND, OP_NOT, OP_BR, OP_JMP, OP_JSR, OP_LD, OP_LDI, OP_LDR,
      OP_LEA, Nat.reduceEqDiff, reduceIte]
  · split_ifs
    · exact ⟨_, _, u16_lt _, rfl⟩
    · exact ⟨_, _, u16_lt _, rfl⟩
  · split_ifs
    · exact ⟨_, _, u16_lt _, rfl⟩
    · exact ⟨_, _, u16_lt _, rfl⟩
  · exact ⟨_, _, u16_of_int_lt _, rfl⟩
  · exact ⟨_, _, mem_read_lt _ _ _ (u16_lt _) hf, rfl⟩
  · exact ⟨_, _, mem_read_lt _ _ _ (mem_read_lt _ _ _ (u16_lt _) hf)
      (mem_read_memory_lt _ _ _ hf), rfl⟩
  · exact ⟨_, _, mem_read_lt _ _ _ (u16_lt _) hf, rfl⟩
  · exact ⟨_, _, u16_lt _, rfl⟩

/-- C3: in a state whose cells are 16-bit words, when the fetched word has
opcode ADD, AND, NOT, LD, LDI, LDR or LEA the step completes and, with `v` the
value the destination register (bits 11-9) now holds, `COND` is ZERO iff
`v = 0`, NEGATIVE iff bit 15 of `v` is set, POSITIVE iff neither, and it is one
of the three single-bit flags `1`, `2`, `4`. -/
theorem flags_after_step (con : Console) (s : VM) (hwf : WF s)
    (hop : (fetch con s).1 >>> 12 = OP_ADD ∨ (fetch con s).1 >>> 12 = OP_AND ∨
      (fetch con s).1 >>> 12 = OP_NOT ∨ (fetch con s).1 >>> 12 = OP_LD ∨
      (fetch con s).1 >>> 12 = OP_LDI ∨ (fetch con s).1 >>> 12 = OP_LDR ∨
      (fetch con s).1 >>> 12 = OP_LEA) :
    ∃ s', step con s = .next s' ∧
      (s'.reg R_COND = FL_ZRO ↔ s'.reg (((fetch con s).1 >>> 9) &&& 0x7) = 0) ∧
      (s'.reg R_COND = FL_NEG ↔
        (s'.reg (((fetch con s).1 >>> 9) &&& 0x7)).testBit 15 = true) ∧
      (s'.reg R_COND = FL_POS ↔
        (s'.reg (((fetch con s).1 >>> 9) &&& 0x7) ≠ 0 ∧
          (s'.reg (((fetch con s).1 >>> 9) &&& 0x7)).testBit 15 = false)) ∧
      (s'.reg R_COND = 1 ∨ s'.reg R_COND = 2 ∨ s'.reg R_COND = 4) := by
  obtain ⟨X, v, hv, hstep⟩ := flag_write_form con s hwf.1 hop
  refine ⟨_, hstep, ?_⟩
  have hd : (set_reg X (((fetch con s).1 >>> 9) &&& 0x7) v).reg
      (((fetch con s).1 >>> 9) &&& 0x7) = v := by
    rw [set_reg_reg, write_same]
  rw [update_flags_reg _ _ _ (field_ne_cond _), update_flags_cond _ _ (by rw [hd]; exact hv), hd]
  exact sign_class_spec v

/-- The demonstration machine holds 16-bit words when `w` and `r0` are. -/
theorem demo_wf (w r0 : Nat) (hw : w < 65536) (hr : r0 < 65536) : WF (demo w r0) := by
  constructor
  · intro a _
    simp only [demo, boot, demo_memory]
    split_ifs <;> omega
  · intro r _
    simp only [demo, boot, write, R_PC, R_COND, FL_ZRO, PC_START]
    split_ifs <;> omega

/-- The witness for C3: `ADD R1, R1, #1` at `0x3000` with `R1 = 0`. -/
theorem flags_after_step_witness :
    WF (demo 0x1261 0) ∧ (fetch silent (demo 0x1261 0)).1 >>> 12 = OP_ADD ∧
    ∃ s', step silent (demo 0x1261 0) = .next s' ∧
      (s'.reg R_COND = FL_ZRO ↔
        s'.reg (((fetch silent (demo 0x1261 0)).1 >>> 9) &&& 0x7) = 0) ∧
      (s'.reg R_COND = FL_NEG ↔
        (s'.reg (((fetch silent (demo 0x1261 0)).1 >>> 9) &&& 0x7)).testBit 15 = true) ∧
      (s'.reg R_COND = FL_POS ↔
        (s'.reg (((fetch silent (demo 0x1261 0)).1 >>> 9) &&& 0x7) ≠ 0 ∧
          (s'.reg (((fetch silent (demo 0x1261 0)).1 >>> 9) &&& 0x7)).testBit 15 = false)) ∧
      (s'.reg R_COND = 1 ∨ s'.reg R_COND = 2 ∨ s'.reg R_COND = 4) :=
  ⟨demo_wf _ _ (by decide) (by decide), by decide,
    flags_after_step silent (demo 0x1261 0) (demo_wf _ _ (by decide) (by decide))
      (Or.inl (by decide))⟩

/-! ## LDI -/

/-- A fetch away from the keyboard status register returns the word stored at
PC and only increments PC. -/
theorem fetch_plain (con : Console) (s : VM) (h : s.reg R_PC ≠ MR_KBSR) :
    fetch con s = (s.memory (s.reg R_PC), set_reg s R_PC (u16 (s.reg R_PC + 1))) := by
  unfold fetch
  rw [mem_read_plain _ _ _ h]
  rfl

/-- C5: let the word at `PC = p` be an LDI instruction with destination `dst`
and offset field `o`, let `A = (p + 1 + sign_extend o 9) mod 65536`,
`memory[A] = B` and `memory[B] = v`, and let none of `p`, `A`, `B` be the
keyboard status address.  Then the step completes with `reg[dst] = v` and
`COND` the sign class of `v`. -/
theorem ldi_step (con : Console) (s : VM) (p dst o A B v : Nat) (hwf : WF s)
    (hp : s.reg R_PC = p) (hop : s.memory p >>> 12 = OP_LDI)
    (hdst : (s.memory p >>> 9) &&& 0x7 = dst) (ho : s.memory p &&& 0x1FF = o)
    (hA : A = (p + 1 + sign_extend o 9) % 65536)
    (hB : s.memory A = B) (hv : s.memory B = v)
    (hp' : p ≠ MR_KBSR) (hA' : A ≠ MR_KBSR) (hB' : B ≠ MR_KBSR) :
    ∃ s', step con s = .next s' ∧ s'.reg dst = v ∧ s'.reg R_COND = sign_class v := by
  have hAlt : A < MEMORY_MAX := by
    rw [hA]
    exact Nat.mod_lt _ (by decide)
  have hvlt : v < 65536 := hv ▸ hwf.1 B (hB ▸ hwf.1 A hAlt)
  have haddr : u16 (u16 (p + 1) + sign_extend o 9) = A := by
    rw [hA]
    simp only [u16]
    omega
  have hne : dst ≠ R_COND := hdst ▸ field_ne_cond _
  subst hp
  unfold step
  rw [fetch_plain con s hp']
  unfold execute
  simp only [hop, OP_ADD, OP_AND, OP_NOT, OP_BR, OP_JMP, OP_JSR, OP_LD, OP_LDI,
    Nat.reduceEqDiff, reduceIte, hdst, ho, set_reg_reg, write_same, haddr]
  rw [mem_read_plain _ _ _ hA', set_reg_memory, hB, mem_read_plain _ _ _ hB',
    set_reg_memory, hv]
  refine ⟨_, rfl, ?_, ?_⟩
  · rw [update_flags_reg _ _ _ hne, set_reg_reg, write_same]
  · rw [update_flags_cond _ _ (by rw [set_reg_reg, write_same]; exact hvlt), set_reg_reg,
      write_same]

/-- The witness for C5: `LDI R1, #1` (the word `0xA201`) at `0x3000`, with
`memory[0x3002] = 0x4000` and `memory[0x4000] = 42`, loads `42`. -/
theorem ldi_step_witness :
    ∃ s', step silent (demo 0xA201 0) = .next s' ∧ s'.reg 1 = 42 ∧
      s'.reg R_COND = sign_class 42 :=
  ldi_step silent (demo 0xA201 0) 0x3000 1 1 0x3002 0x4000 42
    (demo_wf _ _ (by decide) (by decide)) (by decide) (by decide) (by decide) (by decide)
    (by decide) (by decide) (by decide) (by decide) (by decide) (by decide)

/-! ## The running flag -/

@[simp] theorem mem_write_running (s : VM) (a v : Nat) :
    (mem_write s a v).running = s.running := rfl

@[simp] theorem trap_getc_running (con : Console) (s : VM) :
    (trap_getc con s).running = s.running := by
  simp [trap_getc]

@[simp] theorem trap_out_running (s : VM) : (trap_out s).running = s.running := rfl

@[simp] theorem trap_in_running (con : Console) (s : VM) :
    (trap_in con s).running = s.running := by
  simp [trap_in]

theorem trap_puts_running (s s' : VM) (h : trap_puts s = some s') :
    s'.running = s.running := by
  unfold trap_puts at h
  split at h
  · injection h with h
    subst h
    rfl
  · cases h

theorem trap_putsp_running (s s' : VM) (h : trap_putsp s = some s') :
    s'.running = s.running := by
  unfold trap_putsp at h
  split at h
  · injection h with h
    subst h
    rfl
  · cases h

/-- An opcode field of sixteen or more selects the default arm. -/
theorem execute_default (con : Console) (s : VM) (instr : Nat) (h : 16 ≤ instr >>> 12) :
    execute con s instr = .abort := by
  unfold execute
  generalize instr >>> 12 = k at h
  simp only [OP_ADD, OP_AND, OP_NOT, OP_BR, OP_JMP, OP_JSR, OP_LD, OP_LDI, OP_LDR,
      OP_LEA, OP_ST, OP_STI, OP_STR, OP_TRAP]
  have hne : ∀ j, j < 16 → ¬ k = j := fun j hj hkj => by omega
  iterate 14 rw [if_neg (hne _ (by decide))]

/-- Every arm of the switch that completes leaves `running` as it was, except
the HALT arm of TRAP, which clears it. -/
theorem execute_running (con : Console) (s s' : VM) (instr : Nat)
    (h : execute con s instr = .next s') :
    s'.running =
      (if instr >>> 12 = OP_TRAP ∧ instr &&& 0xFF = TRAP_HALT then false else s.running) := by
  by_cases h16 : 16 ≤ instr >>> 12
  · rw [execute_default con s instr h16] at h
    cases h
  unfold execute at h
  by_cases hop : instr >>> 12 = OP_TRAP
  · simp only [hop, OP_ADD, OP_AND, OP_NOT, OP_BR, OP_JMP, OP_JSR, OP_LD, OP_LDI, OP_LDR,
      OP_LEA, OP_ST, OP_STI, OP_STR, OP_TRAP, Nat.reduceEqDiff, reduceIte] at h
    by_cases hv : instr &&& 0xFF = TRAP_HALT
    · rw [if_pos ⟨hop, hv⟩]
      simp only [hv, TRAP_GETC, TRAP_OUT, TRAP_PUTS, TRAP_IN, TRAP_PUTSP, TRAP_HALT,
        Nat.reduceEqDiff, reduceIte] at h
      injection h with h
      subst h
      rfl
    · rw [if_neg (fun hh => hv hh.2)]
      simp only [if_neg hv] at h
      split_ifs at h
      · injection h with h
        subst h
        simp
      · injection h with h
        subst h
        simp
      · split at h
        · injection h with h
          subst h
          rw [trap_puts_running _ _ (by assumption)]
          rfl
        · cases h
      · injection h with h
        subst h
        simp
      · split at h
        · injection h with h
          subst h
          rw [trap_putsp_running _ _ (by assumption)]
          rfl
        · cases h
      · injection h with h
        subst h
        rfl
  · rw [if_neg (fun hh => hop hh.1)]
    generalize instr >>> 12 = k at h h16 hop
    have hk : k < 16 := by omega
    clear h16
    interval_cases k <;>
      simp only [OP_ADD, OP_AND, OP_NOT, OP_BR, OP_JMP, OP_JSR, OP_LD, OP_LDI, OP_LDR,
        OP_LEA, OP_ST, OP_STI, OP_STR, OP_TRAP, Nat.reduceEqDiff, reduceIte] at h hop
    all_goals try split_ifs at h
    all_goals first
      | exact absurd trivial hop
      | (injection h with h
         subst h
         simp)
      | cases h

/-- C10: from a state with `running` true, after a step that completes (does
not abort), `running` is false if and only if the fetched word has opcode
`1111` and low byte `0x25`; every other instruction, every other trap vector
included, leaves `running` true. -/
theorem running_cleared_only_by_halt (con : Console) (s s' : VM)
    (hrun : s.running = true) (hstep : step con s = .next s') :
    (s'.running = false ↔
      ((fetch con s).1 >>> 12 = OP_TRAP ∧ (fetch con s).1 &&& 0xFF = TRAP_HALT)) ∧
    (¬ ((fetch con s).1 >>> 12 = OP_TRAP ∧ (fetch con s).1 &&& 0xFF = TRAP_HALT) →
      s'.running = true) := by
  unfold step at hstep
  have h := execute_running con _ s' _ hstep
  rw [fetch_running, hrun] at h
  by_cases hh : (fetch con s).1 >>> 12 = OP_TRAP ∧ (fetch con s).1 &&& 0xFF = TRAP_HALT
  · rw [if_pos hh] at h
    exact ⟨⟨fun _ => hh, fun _ => h⟩, fun hn => absurd hh hn⟩
  · rw [if_neg hh] at h
    refine ⟨⟨fun hf => ?_, fun hn => absurd hn hh⟩, fun _ => h⟩
    rw [h] at hf
    cases hf

/-- A step that executes `TRAP HALT` at `0x3000` completes. -/
theorem halt_step_completes :
    step silent (demo 0xF025 0) =
      .next { set_reg (fetch silent (demo 0xF025 0)).2 R_R7 0x3001 with
        output := halt_message, running := false } := by
  rfl

/-- The witness for C10: `TRAP HALT` at `0x3000` clears `running`. -/
theorem running_cleared_only_by_halt_witness :
    (demo 0xF025 0).running = true ∧
    (({ set_reg (fetch silent (demo 0xF025 0)).2 R_R7 0x3001 with
        output := halt_message, running := false } : VM).running = false ↔
      ((fetch silent (demo 0xF025 0)).1 >>> 12 = OP_TRAP ∧
        (fetch silent (demo 0xF025 0)).1 &&& 0xFF = TRAP_HALT)) :=
  ⟨rfl, (running_cleared_only_by_halt silent (demo 0xF025 0) _ rfl halt_step_completes).1⟩

/-! ## PUTS -/

/-- Where a zero word lies in the address space at or after `a`, there is a
first one. -/
theorem first_zero_exists (memory : Nat → Nat) (a : Nat)
    (hex : ∃ k, a ≤ k ∧ k ≤ 0xFFFF ∧ memory k = 0) : ∃ k0, first_zero memory a k0 := by
  have hex' : ∃ k, a ≤ k ∧ memory k = 0 := by
    obtain ⟨k, h1, _, h3⟩ := hex
    exact ⟨k, h1, h3⟩
  obtain ⟨k, h1, h2, h3⟩ := hex
  refine ⟨Nat.find hex', (Nat.find_spec hex').1, ?_, (Nat.find_spec hex').2, ?_⟩
  · exact le_trans (Nat.find_min' hex' ⟨h1, h3⟩) h2
  · intro j hj hlt hz
    exact Nat.find_min hex' hlt ⟨hj, hz⟩

/-- The loop of `trap_puts` started `d` cells before the first zero word, with
more than `d` cells left in the array, writes the low bytes of those `d` words
in address order and stops. -/
theorem trap_puts_loop_spec (memory : Nat → Nat) :
    ∀ (d n c : Nat) (out : List Nat), d < n → memory (c + d) = 0 →
      (∀ j, j < d → memory (c + j) ≠ 0) →
      trap_puts_loop memory n c out =
        some (out ++ low_bytes (List.map memory (List.range' c d))) := by
  intro d
  induction d with
  | zero =>
    intro n c out hn hz _
    obtain ⟨m, rfl⟩ : ∃ m, n = m + 1 := ⟨n - 1, by omega⟩
    have hz' : memory c = 0 := by simpa using hz
    simp [trap_puts_loop, hz', low_bytes]
  | succ d ih =>
    intro n c out hn hz hnz
    obtain ⟨m, rfl⟩ : ∃ m, n = m + 1 := ⟨n - 1, by omega⟩
    have h0 : memory c ≠ 0 := by simpa using hnz 0 (by omega)
    have hz' : memory (c + 1 + d) = 0 := by
      rw [← hz]
      congr 1
      omega
    have hnz' : ∀ j, j < d → memory (c + 1 + j) ≠ 0 := by
      intro j hj
      have := hnz (j + 1) (by omega)
      rwa [show c + (j + 1) = c + 1 + j by omega] at this
    rw [trap_puts_loop, if_pos h0, ih m (c + 1) _ (by omega) hz' hnz', List.range'_succ]
    simp [low_bytes]

/-- The routine PUTS, when `k0` is the first zero word at or after `R0`. -/
theorem trap_puts_spec (s : VM) (k0 : Nat) (h : first_zero s.memory (s.reg R_R0) k0) :
    trap_puts s = some { s with
      output := s.output ++ low_bytes (words_between s.memory (s.reg R_R0) k0) } := by
  obtain ⟨h1, h2, h3, h4⟩ := h
  have hl := trap_puts_loop_spec s.memory (k0 - s.reg R_R0) (MEMORY_MAX - s.reg R_R0)
    (s.reg R_R0) s.output (by simp only [MEMORY_MAX]; omega)
    (by rw [show s.reg R_R0 + (k0 - s.reg R_R0) = k0 by omega]; exact h3)
    (fun j hj => h4 _ (by omega) (by omega))
  unfold trap_puts words_between
  rw [hl]

/-- C6: when a zero word lies at some address from `R0 = a` up to `0xFFFF`,
PUTS returns, and with `k0` the first such address it has appended to the
output exactly the low bytes of `memory[a] .. memory[k0 - 1]` in address
order, leaving memory and registers (and everything else) unchanged.  The
words `H`, `i`, `0`, `X` at `R0` give exactly the two bytes of "Hi". -/
theorem puts_stops_at_first_zero (s : VM) (a : Nat) (ha : s.reg R_R0 = a)
    (hex : ∃ k, a ≤ k ∧ k ≤ 0xFFFF ∧ s.memory k = 0) :
    (∃ k0, first_zero s.memory a k0 ∧
      trap_puts s = some { s with
        output := s.output ++ low_bytes (words_between s.memory a k0) }) ∧
    trap_puts (demo 0 0x5000) = some { demo 0 0x5000 with output := [72, 105] } := by
  subst ha
  obtain ⟨k0, hk0⟩ := first_zero_exists s.memory _ hex
  exact ⟨⟨k0, hk0, trap_puts_spec s k0 hk0⟩, rfl⟩

/-- The witness for C6: `R0 = 0x5000`, where the words `H`, `i`, `0`, `X`
lie. -/
theorem puts_stops_at_first_zero_witness :
    (∃ k, 0x5000 ≤ k ∧ k ≤ 0xFFFF ∧ (demo 0 0x5000).memory k = 0) ∧
    ∃ k0, first_zero (demo 0 0x5000).memory 0x5000 k0 ∧
      trap_puts (demo 0 0x5000) = some { demo 0 0x5000 with
        output := (demo 0 0x5000).output ++
          low_bytes (words_between (demo 0 0x5000).memory 0x5000 k0) } :=
  ⟨⟨0x5002, by decide⟩,
    (puts_stops_at_first_zero (demo 0 0x5000) 0x5000 rfl ⟨0x5002, by decide⟩).1⟩

/-! ## PUTSP -/

/-- On a 16-bit word the two `char` conversions of `trap_putsp` change
nothing: the bytes written are the low byte and, when nonzero, the high byte. -/
theorem putsp_word_eq (w : Nat) (hw : w < 65536) : putsp_word w = putsp_bytes w := by
  have h1 : (w &&& 0xFF) % 256 = w &&& 0xFF := by
    rw [and_FF]
    omega
  have h2 : (w >>> 8) % 256 = w >>> 8 := by
    rw [Nat.shiftRight_eq_div_pow]
    have : w / 2 ^ 8 < 256 := by
      rw [Nat.div_lt_iff_lt_mul (by decide)]
      omega
    omega
  unfold putsp_word putsp_bytes
  rw [h1, h2]

/-- The loop of `trap_putsp` started `d` cells before the first zero word,
with more than `d` cells left in the array, writes the bytes of those `d`
words in address order and stops. -/
theorem trap_putsp_loop_spec (memory : Nat → Nat)
    (hm : ∀ b, b < MEMORY_MAX → memory b < 65536) :
    ∀ (d n c : Nat) (out : List Nat), d < n → c + d < MEMORY_MAX → memory (c + d) = 0 →
      (∀ j, j < d → memory (c + j) ≠ 0) →
      trap_putsp_loop memory n c out =
        some (out ++ packed_chars (List.map memory (List.range' c d))) := by
  intro d
  induction d with
  | zero =>
    intro n c out hn _ hz _
    obtain ⟨m, rfl⟩ : ∃ m, n = m + 1 := ⟨n - 1, by omega⟩
    have hz' : memory c = 0 := by simpa using hz
    simp [trap_putsp_loop, hz', packed_chars]
  | succ d ih =>
    intro n c out hn hc hz hnz
    obtain ⟨m, rfl⟩ : ∃ m, n = m + 1 := ⟨n - 1, by omega⟩
    have h0 : memory c ≠ 0 := by simpa using hnz 0 (by omega)
    have hz' : memory (c + 1 + d) = 0 := by
      rw [← hz]
      congr 1
      omega
    have hnz' : ∀ j, j < d → memory (c + 1 + j) ≠ 0 := by
      intro j hj
      have := hnz (j + 1) (by omega)
      rwa [show c + (j + 1) = c + 1 + j by omega] at this
    rw [trap_putsp_loop, if_pos h0, ih m (c + 1) _ (by omega) (by omega) hz' hnz',
      List.range'_succ, putsp_word_eq _ (hm c (by omega))]
    simp [packed_chars]

/-- The routine PUTSP, when `k0` is the first zero word at or after `R0`. -/
theorem trap_putsp_spec (s : VM) (hm : ∀ b, b < MEMORY_MAX → s.memory b < 65536) (k0 : Nat)
    (h : first_zero s.memory (s.reg R_R0) k0) :
    trap_putsp s = some { s with
      output := s.output ++ packed_chars (words_between s.memory (s.reg R_R0) k0) } := by
  obtain ⟨h1, h2, h3, h4⟩ := h
  have hl := trap_putsp_loop_spec s.memory hm (k0 - s.reg R_R0) (MEMORY_MAX - s.reg R_R0)
    (s.reg R_R0) s.output (by simp only [MEMORY_MAX]; omega)
    (by simp only [MEMORY_MAX]; omega)
    (by rw [show s.reg R_R0 + (k0 - s.reg R_R0) = k0 by omega]; exact h3)
    (fun j hj => h4 _ (by omega) (by omega))
  unfold trap_putsp words_between
  rw [hl]

/-- C7: over a memory whose cells are 16-bit words, when a zero word lies at some address
from `R0 = a` up to `0xFFFF`, PUTSP returns, having appended to the output, for
each word `w` from address `a` up to (excluding) the first zero word, in
address order, the byte `w AND 0xFF` followed by the byte `w >> 8` when that
byte is not zero, and nothing else.  The words `0x0041`, `0` at `R0` give
exactly the one byte of "A". -/
theorem putsp_packed_output (s : VM) (a : Nat)
    (hm : ∀ b, b < MEMORY_MAX → s.memory b < 65536)
    (ha : s.reg R_R0 = a) (hex : ∃ k, a ≤ k ∧ k ≤ 0xFFFF ∧ s.memory k = 0) :
    (∃ k0, first_zero s.memory a k0 ∧
      trap_putsp s = some { s with
        output := s.output ++ packed_chars (words_between s.memory a k0) }) ∧
    trap_putsp (demo 0 0x5010) = some { demo 0 0x5010 with output := [0x41] } := by
  subst ha
  obtain ⟨k0, hk0⟩ := first_zero_exists s.memory _ hex
  exact ⟨⟨k0, hk0, trap_putsp_spec s hm k0 hk0⟩, rfl⟩

/-- The witness for C7: `R0 = 0x5010`, where the words `0x0041`, `0` lie. -/
theorem putsp_packed_output_witness :
    (∀ b, b < MEMORY_MAX → (demo 0 0x5010).memory b < 65536) ∧
    (∃ k, 0x5010 ≤ k ∧ k ≤ 0xFFFF ∧ (demo 0 0x5010).memory k = 0) ∧
    ∃ k0, first_zero (demo 0 0x5010).memory 0x5010 k0 ∧
      trap_putsp (demo 0 0x5010) = some { demo 0 0x5010 with
        output := (demo 0 0x5010).output ++
          packed_chars (words_between (demo 0 0x5010).memory 0x5010 k0) } :=
  ⟨(demo_wf 0 0x5010 (by decide) (by decide)).1, ⟨0x5011, by decide⟩,
    (putsp_packed_output (demo 0 0x5010) 0x5010 (demo_wf 0 0x5010 (by decide) (by decide)).1
      rfl ⟨0x5011, by decide⟩).1⟩

/-! ## A two-instruction program -/

/-- The fields the switch decodes from an ADD-immediate word. -/
theorem add_imm_fields (dst src i : Nat) (hdst : dst < 8) (hsrc : src < 8) (hi : i < 32) :
    add_imm dst src i >>> 12 = OP_ADD ∧
    (add_imm dst src i >>> 9) &&& 0x7 = dst ∧
    (add_imm dst src i >>> 6) &&& 0x7 = src ∧
    (add_imm dst src i >>> 5) &&& 0x1 = 1 ∧
    add_imm dst src i &&& 0x1F = i := by
  simp only [and_7, and_1F, Nat.and_one_is_mod, Nat.shiftRight_eq_div_pow, add_imm, OP_ADD]
  refine ⟨?_, ?_, ?_, ?_, ?_⟩ <;> omega

/-- The step on an ADD-immediate word fetched away from the keyboard status
register. -/
theorem step_add_imm (con : Console) (s : VM) (dst src i : Nat)
    (hdst : dst < 8) (hsrc : src < 8) (hi : i < 32)
    (hp : s.reg R_PC ≠ MR_KBSR) (hw : s.memory (s.reg R_PC) = add_imm dst src i) :
    step con s = .next (update_flags
      (set_reg (set_reg s R_PC (u16 (s.reg R_PC + 1))) dst (u16 (s.reg src + sign_extend i 5)))
      dst) := by
  obtain ⟨h1, h2, h3, h4, h5⟩ := add_imm_fields dst src i hdst hsrc hi
  have hsrc' : src ≠ R_PC := by simp only [R_PC]; omega
  unfold step
  rw [fetch_plain con s hp, hw]
  unfold execute
  simp only [h1, h2, h3, h4, h5, if_true, ne_eq, one_ne_zero, not_false_eq_true, set_reg_reg,
    write_other _ _ _ _ hsrc']

/-- The HALT arm of the TRAP case. -/
theorem execute_halt (con : Console) (s : VM) (instr : Nat)
    (hop : instr >>> 12 = OP_TRAP) (hv : instr &&& 0xFF = TRAP_HALT) :
    execute con s instr = .next
      { set_reg s R_R7 (s.reg R_PC) with
        output := s.output ++ halt_message, running := false } := by
  unfold execute
  simp only [hop, hv, OP_ADD, OP_AND, OP_NOT, OP_BR, OP_JMP, OP_JSR, OP_LD, OP_LDI, OP_LDR,
    OP_LEA, OP_ST, OP_STI, OP_STR, OP_TRAP, TRAP_GETC, TRAP_OUT, TRAP_PUTS, TRAP_IN,
    TRAP_PUTSP, TRAP_HALT, Nat.reduceEqDiff, reduceIte]
  rfl

/-- The step on `TRAP HALT` fetched away from the keyboard status register. -/
theorem step_halt (con : Console) (s : VM)
    (hp : s.reg R_PC ≠ MR_KBSR) (hw : s.memory (s.reg R_PC) = 0xF025) :
    step con s = .next
      { set_reg (set_reg s R_PC (u16 (s.reg R_PC + 1))) R_R7 (u16 (s.reg R_PC + 1)) with
        output := s.output ++ halt_message, running := false } := by
  unfold step
  rw [fetch_plain con s hp, hw, execute_halt con _ 0xF025 (by decide) (by decide)]
  rfl

/-- The loop entered with `running` false is left at once. -/
theorem main_loop_stopped (con : Console) (fuel : Nat) (s : VM) (count : Nat)
    (h : s.running = false) : main_loop con fuel s count = .exited s count := by
  cases fuel <;> simp [main_loop, h]

/-- A completed step of a running machine is one turn of the loop. -/
theorem main_loop_step (con : Console) (fuel : Nat) (s s1 : VM) (count : Nat)
    (hrun : s.running = true) (h : step con s = .next s1) :
    main_loop con (fuel + 1) s count = main_loop con fuel s1 (count + 1) := by
  rw [main_loop, if_pos hrun, h]

/-- The run of the program `ADD dst, src, #i; TRAP HALT` loaded at `0x3000`:
two instructions, then the loop is left in the state shown. -/
theorem add_halt_run (con : Console) (memory reg : Nat → Nat) (dst src i fuel : Nat)
    (hdst : dst < 8) (hsrc : src < 8) (hi : i < 32)
    (h0 : memory 0x3000 = add_imm dst src i) (h1 : memory 0x3001 = 0xF025)
    (hfuel : 2 ≤ fuel) :
    main_loop con fuel (boot memory reg) 0 = .exited
      { set_reg (set_reg (update_flags (set_reg (set_reg (boot memory reg) R_PC 0x3001) dst
          (u16 (reg src + sign_extend i 5))) dst) R_PC 0x3002) R_R7 0x3002 with
        output := halt_message, running := false } 2 := by
  obtain ⟨f, rfl⟩ : ∃ f, fuel = f + 2 := ⟨fuel - 2, by omega⟩
  have hsrc1 : src ≠ R_PC := by simp only [R_PC]; omega
  have hsrc2 : src ≠ R_COND := by simp only [R_COND]; omega
  have hdst1 : R_PC ≠ dst := by simp only [R_PC]; omega
  have hpc : (boot memory reg).reg R_PC = 0x3000 := by simp [boot, PC_START]
  have hsrcv : (boot memory reg).reg src = reg src := by
    simp only [boot, write_other _ _ _ _ hsrc1, write_other _ _ _ _ hsrc2]
  have e1 := step_add_imm con (boot memory reg) dst src i hdst hsrc hi
    (by rw [hpc]; decide) (by rw [hpc]; exact h0)
  rw [hpc, hsrcv] at e1
  have hpc2 : (update_flags (set_reg (set_reg (boot memory reg) R_PC (u16 (0x3000 + 1))) dst
      (u16 (reg src + sign_extend i 5))) dst).reg R_PC = 0x3001 := by
    rw [update_flags_reg _ _ _ (by decide), set_reg_reg, write_other _ _ _ _ hdst1,
      set_reg_reg, write_same]
    rfl
  have e2 := step_halt con _ (by rw [hpc2]; decide)
    (by rw [hpc2, update_flags_memory, set_reg_memory, set_reg_memory]; exact h1)
  rw [hpc2] at e2
  have hout : (update_flags (set_reg (set_reg (boot memory reg) R_PC (u16 (0x3000 + 1))) dst
      (u16 (reg src + sign_extend i 5))) dst).output = [] := by
    rw [update_flags_eq]
    rfl
  rw [hout] at e2
  rw [main_loop_step con (f + 1) _ _ 0 rfl e1,
    main_loop_step con f _ _ 1 (by rw [update_flags_running]; rfl) e2,
    main_loop_stopped _ _ _ _ rfl]
  rfl

/-- C8, as the code has it: from the start state of `main` with
`memory[0x3000]` the ADD-immediate word for `(dst, src, i)` and
`memory[0x3001] = 0xF025`, for every initial register content and every
console, the loop executes exactly two instructions and is left with `running`
false; `R7` then holds `0x3002`, the return address the TRAP saved, and every
destination register other than `R7` holds
`(reg[src] + sign_extend i 5) mod 65536`. -/
theorem add_then_halt (con : Console) (memory reg : Nat → Nat) (dst src i fuel : Nat)
    (hdst : dst < 8) (hsrc : src < 8) (hi : i < 32)
    (h0 : memory 0x3000 = add_imm dst src i) (h1 : memory 0x3001 = 0xF025)
    (hfuel : 2 ≤ fuel) :
    ∃ s', main_loop con fuel (boot memory reg) 0 = .exited s' 2 ∧ s'.running = false ∧
      (dst ≠ 7 → s'.reg dst = (reg src + sign_extend i 5) % 65536) ∧
      s'.reg R_R7 = 0x3002 := by
  refine ⟨_, add_halt_run con memory reg dst src i fuel hdst hsrc hi h0 h1 hfuel, rfl, ?_, ?_⟩
  · intro h7
    have e1 : dst ≠ R_R7 := h7
    have e2 : dst ≠ R_PC := by simp only [R_PC]; omega
    have e3 : dst ≠ R_COND := by simp only [R_COND]; omega
    show (set_reg (set_reg (update_flags (set_reg (set_reg (boot memory reg) R_PC 0x3001) dst
      (u16 (reg src + sign_extend i 5))) dst) R_PC 0x3002) R_R7 0x3002).reg dst = _
    rw [set_reg_reg, write_other _ _ _ _ e1, set_reg_reg, write_other _ _ _ _ e2,
      update_flags_reg _ _ _ e3, set_reg_reg, write_same]
    rfl
  · show (set_reg (set_reg (update_flags (set_reg (set_reg (boot memory reg) R_PC 0x3001) dst
      (u16 (reg src + sign_extend i 5))) dst) R_PC 0x3002) R_R7 0x3002).reg R_R7 = _
    rw [set_reg_reg, write_same]

/-- The witness for C8: `ADD R1, R1, #1; TRAP HALT` with all registers zero
and a budget of five instructions. -/
theorem add_then_halt_witness :
    ∃ s', main_loop silent 5 (boot (demo_memory (add_imm 1 1 1)) (fun _ => 0)) 0 =
        .exited s' 2 ∧ s'.running = false ∧
      ((1 : Nat) ≠ 7 → s'.reg 1 = ((fun _ => 0) 1 + sign_extend 1 5) % 65536) ∧
      s'.reg R_R7 = 0x3002 :=
  add_then_halt silent (demo_memory (add_imm 1 1 1)) (fun _ => 0) 1 1 1 5
    (by decide) (by decide) (by decide) (by decide) (by decide) (by decide)

/-- The counterexample to C8 as stated: for `ADD R7, R0, #1; TRAP HALT` with
all registers zero the loop is left after two instructions with
`R7 = 0x3002`, not with the sum `1`. -/
theorem add_then_halt_counterexample :
    ¬ ∃ s', main_loop silent 2 (boot (demo_memory (add_imm 7 0 1)) (fun _ => 0)) 0 =
        .exited s' 2 ∧ s'.running = false ∧
      s'.reg 7 = ((fun _ => 0) 0 + sign_extend 1 5) % 65536 := by
  rintro ⟨s', h, _, h7⟩
  rw [add_halt_run silent (demo_memory (add_imm 7 0 1)) (fun _ => 0) 7 0 1 2
    (by decide) (by decide) (by decide) (by decide) (by decide) (by decide)] at h
  injection h with h _
  subst h
  have e : (0x3002 : Nat) = (0 + sign_extend 1 5) % 65536 := h7
  revert e
  decide

/-! ## The memory read contract -/

theorem check_key_ne_zero (con : Console) (n : Nat) :
    check_key con n ≠ 0 ↔ key_available con n = true := by
  unfold check_key key_available
  split_ifs with h <;> simp [h]

/-- A read of the keyboard status register when a key is reported. -/
theorem mem_read_kbsr_ready (con : Console) (s : VM) (h : key_available con s.polls = true) :
    mem_read con s MR_KBSR = (0x8000,
      { s with
        memory := write (write s.memory MR_KBSR 0x8000) MR_KBDR (u16_of_int (con.getch s.keys))
        polls := s.polls + 1
        keys := s.keys + 1 }) := by
  have hk : check_key con s.polls ≠ 0 := (check_key_ne_zero con s.polls).2 h
  simp only [mem_read, if_true, if_pos hk]
  rfl

/-- A read of the keyboard status register when no key is reported. -/
theorem mem_read_kbsr_idle (con : Console) (s : VM) (h : key_available con s.polls = false) :
    mem_read con s MR_KBSR = (0,
      { s with memory := write s.memory MR_KBSR 0, polls := s.polls + 1 }) := by
  have hk : ¬ check_key con s.polls ≠ 0 := by
    rw [check_key_ne_zero, h]
    decide
  simp only [mem_read, if_true, if_neg hk]
  rfl

/-- C12: a read at an address other than `0xFE00` returns `memory[a]` and
leaves the whole state (memory and input position) as it was; a read at
`0xFE00` when the input provider reports a key sets `memory[0xFE00] = 0x8000`,
stores the code of the key read in `memory[0xFE02]` and returns `0x8000`;
when no key is reported it sets `memory[0xFE00] = 0` and returns `0`.  The
word returned for `0xFE00` is thus determined by the present poll alone,
whatever was stored there before. -/
theorem mem_read_contract (con : Console) (s : VM) (a : Nat) :
    (a ≠ MR_KBSR → mem_read con s a = (s.memory a, s)) ∧
    (key_available con s.polls = true →
      (mem_read con s MR_KBSR).1 = 0x8000 ∧
      (mem_read con s MR_KBSR).2.memory MR_KBSR = 0x8000 ∧
      (mem_read con s MR_KBSR).2.memory MR_KBDR = u16_of_int (con.getch s.keys)) ∧
    (key_available con s.polls = false →
      (mem_read con s MR_KBSR).1 = 0 ∧ (mem_read con s MR_KBSR).2.memory MR_KBSR = 0) ∧
    (mem_read con s MR_KBSR).1 = (if key_available con s.polls = true then 0x8000 else 0) := by
  refine ⟨mem_read_plain con s a, ?_, ?_, ?_⟩
  · intro h
    rw [mem_read_kbsr_ready con s h]
    exact ⟨rfl, rfl, rfl⟩
  · intro h
    rw [mem_read_kbsr_idle con s h]
    exact ⟨rfl, rfl⟩
  · cases h : key_available con s.polls
    · rw [mem_read_kbsr_idle con s h]
      rfl
    · rw [mem_read_kbsr_ready con s h]
      rfl

/-- The witness for C12: a read of `0xFE00` at a console with a key ready, and
a read of `0x4000`. -/
theorem mem_read_contract_witness :
    (0x4000 ≠ MR_KBSR ∧ mem_read typing (demo 0 0) 0x4000 = (42, demo 0 0)) ∧
    (key_available typing (demo 0 0).polls = true ∧
      (mem_read typing (demo 0 0) MR_KBSR).1 = 0x8000) :=
  ⟨⟨by decide, (mem_read_contract typing (demo 0 0) 0x4000).1 (by decide)⟩,
    rfl, ((mem_read_contract typing (demo 0 0) MR_KBSR).2.1 rfl).1⟩

/-! ## The arms of the switch, one by one -/

theorem execute_br (con : Console) (s : VM) (instr : Nat) (hop : instr >>> 12 = OP_BR) :
    execute con s instr =
      if ((instr >>> 9) &&& 0x7) &&& s.reg R_COND ≠ 0 then
        .next (set_reg s R_PC (u16 (s.reg R_PC + sign_extend (instr &&& 0x1FF) 9)))
      else .next s := by
  unfold execute
  simp only [hop, OP_ADD, OP_AND, OP_NOT, OP_BR, Nat.reduceEqDiff, reduceIte]

theorem execute_jmp (con : Console) (s : VM) (instr : Nat) (hop : instr >>> 12 = OP_JMP) :
    execute con s instr = .next (set_reg s R_PC (s.reg ((instr >>> 6) &&& 0x7))) := by
  unfold execute
  simp only [hop, OP_ADD, OP_AND, OP_NOT, OP_BR, OP_JMP, Nat.reduceEqDiff, reduceIte]

theorem execute_jsr (con : Console) (s : VM) (instr : Nat) (hop : instr >>> 12 = OP_JSR) :
    execute con s instr =
      if (instr >>> 11) &&& 1 ≠ 0 then
        .next (set_reg (set_reg s R_R7 (s.reg R_PC)) R_PC
          (u16 ((set_reg s R_R7 (s.reg R_PC)).reg R_PC + sign_extend (instr &&& 0x7FF) 11)))
      else
        .next (set_reg (set_reg s R_R7 (s.reg R_PC)) R_PC
          ((set_reg s R_R7 (s.reg R_PC)).reg ((instr >>> 6) &&& 0x7))) := by
  unfold execute
  simp only [hop, OP_ADD, OP_AND, OP_NOT, OP_BR, OP_JMP, OP_JSR, Nat.reduceEqDiff, reduceIte]

theorem execute_st (con : Console) (s : VM) (instr : Nat) (hop : instr >>> 12 = OP_ST) :
    execute con s instr =
      .next (mem_write s (u16 (s.reg R_PC + sign_extend (instr &&& 0x1FF) 9))
        (s.reg ((instr >>> 9) &&& 0x7))) := by
  unfold execute
  simp only [hop, OP_ADD, OP_AND, OP_NOT, OP_BR, OP_JMP, OP_JSR, OP_LD, OP_LDI, OP_LDR,
    OP_LEA, OP_ST, Nat.reduceEqDiff, reduceIte]

theorem execute_sti (con : Console) (s : VM) (instr : Nat) (hop : instr >>> 12 = OP_STI) :
    execute con s instr =
      .next (mem_write (mem_read con s (u16 (s.reg R_PC + sign_extend (instr &&& 0x1FF) 9))).2
        (mem_read con s (u16 (s.reg R_PC + sign_extend (instr &&& 0x1FF) 9))).1
        ((mem_read con s (u16 (s.reg R_PC + sign_extend (instr &&& 0x1FF) 9))).2.reg
          ((instr >>> 9) &&& 0x7))) := by
  unfold execute
  simp only [hop, OP_ADD, OP_AND, OP_NOT, OP_BR, OP_JMP, OP_JSR, OP_LD, OP_LDI, OP_LDR,
    OP_LEA, OP_ST, OP_STI, Nat.reduceEqDiff, reduceIte]

theorem execute_str (con : Console) (s : VM) (instr : Nat) (hop : instr >>> 12 = OP_STR) :
    execute con s instr =
      .next (mem_write s (u16 (s.reg ((instr >>> 6) &&& 0x7) + sign_extend (instr &&& 0x3F) 6))
        (s.reg ((instr >>> 9) &&& 0x7))) := by
  unfold execute
  simp only [hop, OP_ADD, OP_AND, OP_NOT, OP_BR, OP_JMP, OP_JSR, OP_LD, OP_LDI, OP_LDR,
    OP_LEA, OP_ST, OP_STI, OP_STR, Nat.reduceEqDiff, reduceIte]

/-- The TRAP case: `R7` is written, then the vector is dispatched. -/
theorem execute_trap (con : Console) (s : VM) (instr : Nat) (hop : instr >>> 12 = OP_TRAP) :
    execute con s instr =
      if instr &&& 0xFF = TRAP_GETC then
        .next (trap_getc con (set_reg s R_R7 (s.reg R_PC)))
      else if instr &&& 0xFF = TRAP_OUT then
        .next (trap_out (set_reg s R_R7 (s.reg R_PC)))
      else if instr &&& 0xFF = TRAP_PUTS then
        match trap_puts (set_reg s R_R7 (s.reg R_PC)) with
        | some s2 => .next s2
        | none => .out_of_range
      else if instr &&& 0xFF = TRAP_IN then
        .next (trap_in con (set_reg s R_R7 (s.reg R_PC)))
      else if instr &&& 0xFF = TRAP_PUTSP then
        match trap_putsp (set_reg s R_R7 (s.reg R_PC)) with
        | some s2 => .next s2
        | none => .out_of_range
      else if instr &&& 0xFF = TRAP_HALT then
        .next { set_reg s R_R7 (s.reg R_PC) with
          output := (set_reg s R_R7 (s.reg R_PC)).output ++ halt_message, running := false }
      else
        .next (set_reg s R_R7 (s.reg R_PC)) := by
  unfold execute
  simp only [hop, OP_ADD, OP_AND, OP_NOT, OP_BR, OP_JMP, OP_JSR, OP_LD, OP_LDI, OP_LDR,
    OP_LEA, OP_ST, OP_STI, OP_STR, OP_TRAP, Nat.reduceEqDiff, reduceIte]

@[simp] theorem mem_write_reg (s : VM) (a v : Nat) : (mem_write s a v).reg = s.reg := rfl

@[simp] theorem mem_write_memory (s : VM) (a v : Nat) :
    (mem_write s a v).memory = write s.memory a v := rfl

/-! ## ST and STR -/

/-- C14: let `PC = p` be different from `0xFE00` and let the word at `p` be an
ST or STR instruction with source register `sr` (bits 11-9).  The step
completes; the new memory holds the old `reg[sr]` at the address `e` and the
old contents everywhere else, where `e = (p + 1 + sign_extend (bits 8-0) 9)
mod 65536` for ST and `e = (reg[base] + sign_extend (bits 5-0) 6) mod 65536`
for STR with `base` bits 8-6; `R0..R7` and `COND` are unchanged and
`PC = (p + 1) mod 65536`. -/
theorem store_step (con : Console) (s : VM) (p e : Nat)
    (hp : s.reg R_PC = p) (hne : p ≠ MR_KBSR)
    (hop : s.memory p >>> 12 = OP_ST ∨ s.memory p >>> 12 = OP_STR)
    (he : e = if s.memory p >>> 12 = OP_ST then
        (p + 1 + sign_extend (s.memory p &&& 0x1FF) 9) % 65536
      else (s.reg ((s.memory p >>> 6) &&& 0x7) + sign_extend (s.memory p &&& 0x3F) 6) % 65536) :
    ∃ s', step con s = .next s' ∧
      s'.memory e = s.reg ((s.memory p >>> 9) &&& 0x7) ∧
      (∀ a, a ≠ e → s'.memory a = s.memory a) ∧
      (∀ r, r < 8 → s'.reg r = s.reg r) ∧
      s'.reg R_COND = s.reg R_COND ∧
      s'.reg R_PC = (p + 1) % 65536 := by
  subst hp
  have hregs : ∀ r, r < 8 → (set_reg s R_PC (u16 (s.reg R_PC + 1))).reg r = s.reg r := by
    intro r hr
    rw [set_reg_reg, write_other _ _ _ _ (by simp only [R_PC]; omega)]
  unfold step
  rw [fetch_plain con s hne]
  rcases hop with h | h
  · rw [execute_st con _ _ h]
    rw [if_pos h] at he
    have hea : u16 ((set_reg s R_PC (u16 (s.reg R_PC + 1))).reg R_PC +
        sign_extend (s.memory (s.reg R_PC) &&& 0x1FF) 9) = e := by
      rw [he, set_reg_reg, write_same]
      simp only [u16]
      omega
    rw [hea]
    refine ⟨_, rfl, ?_, ?_, hregs, ?_, ?_⟩
    · rw [mem_write_memory, write_same, hregs _ (field_lt _)]
    · intro a ha
      rw [mem_write_memory, write_other _ _ _ _ ha, set_reg_memory]
    · rw [mem_write_reg, set_reg_reg, write_other _ _ _ _ (by decide)]
    · rw [mem_write_reg, set_reg_reg, write_same]
      rfl
  · rw [execute_str con _ _ h]
    rw [if_neg (by rw [h]; decide)] at he
    have hea : u16 ((set_reg s R_PC (u16 (s.reg R_PC + 1))).reg
        ((s.memory (s.reg R_PC) >>> 6) &&& 0x7) +
        sign_extend (s.memory (s.reg R_PC) &&& 0x3F) 6) = e := by
      rw [he, hregs _ (field_lt _)]
      rfl
    rw [hea]
    refine ⟨_, rfl, ?_, ?_, hregs, ?_, ?_⟩
    · rw [mem_write_memory, write_same, hregs _ (field_lt _)]
    · intro a ha
      rw [mem_write_memory, write_other _ _ _ _ ha, set_reg_memory]
    · rw [mem_write_reg, set_reg_reg, write_other _ _ _ _ (by decide)]
    · rw [mem_write_reg, set_reg_reg, write_same]
      rfl

/-- The witness for C14: `ST R0, #2` (the word `0x3002`) at `0x3000` with
`R0 = 7` stores `7` at `0x3003`. -/
theorem store_step_witness :
    ∃ s', step silent (demo 0x3002 7) = .next s' ∧
      s'.memory 0x3003 = (demo 0x3002 7).reg (((demo 0x3002 7).memory 0x3000 >>> 9) &&& 0x7) ∧
      (∀ a, a ≠ 0x3003 → s'.memory a = (demo 0x3002 7).memory a) ∧
      (∀ r, r < 8 → s'.reg r = (demo 0x3002 7).reg r) ∧
      s'.reg R_COND = (demo 0x3002 7).reg R_COND ∧
      s'.reg R_PC = (0x3000 + 1) % 65536 :=
  store_step silent (demo 0x3002 7) 0x3000 0x3003 (by decide) (by decide)
    (Or.inl (by decide)) (by decide)

/-! ## Unknown trap vectors -/

/-- C15: let `PC = p` be different from `0xFE00` and let the word at `p` be a
TRAP instruction whose low byte is none of `0x20 .. 0x25`.  The step completes
(it does not abort); it writes no output, reads no input, and leaves memory,
`R0..R6`, `COND` and `running` unchanged; `R7` and `PC` both become
`(p + 1) mod 65536`. -/
theorem unknown_trap_step (con : Console) (s : VM) (p : Nat)
    (hp : s.reg R_PC = p) (hne : p ≠ MR_KBSR) (hop : s.memory p >>> 12 = OP_TRAP)
    (hv : s.memory p &&& 0xFF < 0x20 ∨ 0x25 < s.memory p &&& 0xFF) :
    ∃ s', step con s = .next s' ∧
      s'.output = s.output ∧
      (s'.polls = s.polls ∧ s'.keys = s.keys ∧ s'.chars = s.chars) ∧
      s'.memory = s.memory ∧
      (∀ r, r < 7 → s'.reg r = s.reg r) ∧
      s'.reg R_COND = s.reg R_COND ∧
      s'.running = s.running ∧
      s'.reg R_R7 = (p + 1) % 65536 ∧
      s'.reg R_PC = (p + 1) % 65536 := by
  subst hp
  unfold step
  rw [fetch_plain con s hne, execute_trap con _ _ hop]
  simp only [TRAP_GETC, TRAP_OUT, TRAP_PUTS, TRAP_IN, TRAP_PUTSP, TRAP_HALT]
  iterate 6 rw [if_neg (by omega)]
  refine ⟨_, rfl, rfl, ⟨rfl, rfl, rfl⟩, rfl, ?_, ?_, rfl, ?_, ?_⟩
  · intro r hr
    rw [set_reg_reg, write_other _ _ _ _ (by simp only [R_R7]; omega), set_reg_reg,
      write_other _ _ _ _ (by simp only [R_PC]; omega)]
  · rw [set_reg_reg, write_other _ _ _ _ (by decide), set_reg_reg,
      write_other _ _ _ _ (by decide)]
  · rw [set_reg_reg, write_same, set_reg_reg, write_same]
    rfl
  · rw [set_reg_reg, write_other _ _ _ _ (by decide), set_reg_reg, write_same]
    rfl

/-- The witness for C15: `TRAP 0x26` (the word `0xF026`) at `0x3000`. -/
theorem unknown_trap_step_witness :
    ∃ s', step silent (demo 0xF026 0) = .next s' ∧
      s'.output = (demo 0xF026 0).output ∧
      (s'.polls = (demo 0xF026 0).polls ∧ s'.keys = (demo 0xF026 0).keys ∧
        s'.chars = (demo 0xF026 0).chars) ∧
      s'.memory = (demo 0xF026 0).memory ∧
      (∀ r, r < 7 → s'.reg r = (demo 0xF026 0).reg r) ∧
      s'.reg R_COND = (demo 0xF026 0).reg R_COND ∧
      s'.running = (demo 0xF026 0).running ∧
      s'.reg R_R7 = (0x3000 + 1) % 65536 ∧
      s'.reg R_PC = (0x3000 + 1) % 65536 :=
  unknown_trap_step silent (demo 0xF026 0) 0x3000 (by decide) (by decide) (by decide)
    (Or.inr (by decide))

/-! ## Instructions that leave COND alone -/

/-- C16: when the fetched word has opcode BR, JMP, ST, STI or STR, the step
completes, for every console, and `COND` after it equals `COND` before it. -/
theorem cond_untouched (con : Console) (s : VM)
    (hop : (fetch con s).1 >>> 12 = OP_BR ∨ (fetch con s).1 >>> 12 = OP_JMP ∨
      (fetch con s).1 >>> 12 = OP_ST ∨ (fetch con s).1 >>> 12 = OP_STI ∨
      (fetch con s).1 >>> 12 = OP_STR) :
    ∃ s', step con s = .next s' ∧ s'.reg R_COND = s.reg R_COND := by
  have hc : (fetch con s).2.reg R_COND = s.reg R_COND :=
    fetch_reg_other con s R_COND (by decide)
  unfold step
  rcases hop with h | h | h | h | h
  · rw [execute_br con _ _ h]
    split_ifs
    · exact ⟨_, rfl, by rw [set_reg_reg, write_other _ _ _ _ (by decide), hc]⟩
    · exact ⟨_, rfl, hc⟩
  · rw [execute_jmp con _ _ h]
    exact ⟨_, rfl, by rw [set_reg_reg, write_other _ _ _ _ (by decide), hc]⟩
  · rw [execute_st con _ _ h]
    exact ⟨_, rfl, by rw [mem_write_reg, hc]⟩
  · rw [execute_sti con _ _ h]
    exact ⟨_, rfl, by rw [mem_write_reg, mem_read_reg, hc]⟩
  · rw [execute_str con _ _ h]
    exact ⟨_, rfl, by rw [mem_write_reg, hc]⟩

/-- The witness for C16: `JMP R0` (the word `0xC000`) at `0x3000`. -/
theorem cond_untouched_witness :
    (fetch silent (demo 0xC000 0)).1 >>> 12 = OP_JMP ∧
    ∃ s', step silent (demo 0xC000 0) = .next s' ∧
      s'.reg R_COND = (demo 0xC000 0).reg R_COND :=
  ⟨by decide, cond_untouched silent (demo 0xC000 0) (Or.inr (Or.inl (by decide)))⟩

/-! ## The condition flag invariant -/

theorem update_flags_cond_valid (s : VM) (r : Nat) : cond_valid (update_flags s r) := by
  unfold cond_valid
  rw [update_flags_eq, set_reg_reg, write_same]
  split_ifs
  · exact Or.inr (Or.inl rfl)
  · exact Or.inr (Or.inr rfl)
  · exact Or.inl rfl

theorem trap_puts_reg (s s' : VM) (h : trap_puts s = some s') : s'.reg = s.reg := by
  unfold trap_puts at h
  split at h
  · injection h with h
    subst h
    rfl
  · cases h

theorem trap_putsp_reg (s s' : VM) (h : trap_putsp s = some s') : s'.reg = s.reg := by
  unfold trap_putsp at h
  split at h
  · injection h with h
    subst h
    rfl
  · cases h

/-- A completed TRAP either leaves `COND` as it was or leaves one of the three
flags in it. -/
theorem execute_trap_cond (con : Console) (s s' : VM) (instr : Nat)
    (hop : instr >>> 12 = OP_TRAP) (h : execute con s instr = .next s') :
    s'.reg R_COND = s.reg R_COND ∨ cond_valid s' := by
  have h7 : (set_reg s R_R7 (s.reg R_PC)).reg R_COND = s.reg R_COND := by
    rw [set_reg_reg, write_other _ _ _ _ (by decide)]
  rw [execute_trap con s instr hop] at h
  split_ifs at h
  · injection h with h
    subst h
    exact Or.inr (update_flags_cond_valid _ _)
  · injection h with h
    subst h
    exact Or.inl h7
  · split at h
    · injection h with h
      subst h
      rename_i hs
      rw [trap_puts_reg _ _ hs]
      exact Or.inl h7
    · cases h
  · injection h with h
    subst h
    exact Or.inr (update_flags_cond_valid _ _)
  · split at h
    · injection h with h
      subst h
      rename_i hs
      rw [trap_putsp_reg _ _ hs]
      exact Or.inl h7
    · cases h
  · injection h with h
    subst h
    exact Or.inl h7
  · injection h with h
    subst h
    exact Or.inl h7

/-- Every arm of the switch that completes either leaves `COND` as it was or
leaves one of the three flags in it. -/
theorem execute_cond (con : Console) (s s' : VM) (instr : Nat)
    (h : execute con s instr = .next s') :
    s'.reg R_COND = s.reg R_COND ∨ cond_valid s' := by
  by_cases h16 : 16 ≤ instr >>> 12
  · rw [execute_default con s instr h16] at h
    cases h
  by_cases hop : instr >>> 12 = OP_TRAP
  · exact execute_trap_cond con s s' instr hop h
  unfold execute at h
  generalize instr >>> 12 = k at h h16 hop
  have hk : k < 16 := by omega
  clear h16
  interval_cases k <;>
    simp only [OP_ADD, OP_AND, OP_NOT, OP_BR, OP_JMP, OP_JSR, OP_LD, OP_LDI, OP_LDR,
      OP_LEA, OP_ST, OP_STI, OP_STR, OP_TRAP, Nat.reduceEqDiff, reduceIte] at h hop
  all_goals try split_ifs at h
  all_goals first
    | exact absurd trivial hop
    | (injection h with h
       subst h
       first
         | exact Or.inr (update_flags_cond_valid _ _)
         | exact Or.inl rfl
         | exact Or.inl (by simp [write, R_COND, R_PC, R_R7]))
    | cases h

/-- C17: `COND` holds one of `POSITIVE = 1`, `ZERO = 2`, `NEGATIVE = 4` in the
state in which `main` enters the loop (`COND = ZERO`, `PC = 0x3000`); every
step that completes preserves this, for every fetched word, every memory and
every console; and so it holds in every state the loop reaches. -/
theorem cond_invariant (con : Console) (memory reg : Nat → Nat) :
    ((boot memory reg).reg R_COND = FL_ZRO ∧ (boot memory reg).reg R_PC = 0x3000 ∧
      cond_valid (boot memory reg)) ∧
    (∀ s s', cond_valid s → step con s = .next s' → cond_valid s') ∧
    (∀ s, Reachable con memory reg s →
      s.reg R_COND = 1 ∨ s.reg R_COND = 2 ∨ s.reg R_COND = 4) := by
  have h0 : cond_valid (boot memory reg) := Or.inr (Or.inl rfl)
  have hstep : ∀ s s', cond_valid s → step con s = .next s' → cond_valid s' := by
    intro s s' hs h
    unfold step at h
    rcases execute_cond con _ s' _ h with e | e
    · unfold cond_valid at hs ⊢
      rw [e, fetch_reg_other con s R_COND (by decide)]
      exact hs
    · exact e
  refine ⟨⟨rfl, rfl, h0⟩, hstep, ?_⟩
  intro s hr
  have hv : cond_valid s := by
    induction hr with
    | start => exact h0
    | next s s' _ _ hst ih => exact hstep s s' ih hst
  exact hv

/-- The step of the start state on `ADD R1, R1, #1` at `0x3000`. -/
theorem add_demo_step :
    step silent (demo 0x1261 0) =
      .next (update_flags (set_reg (set_reg (demo 0x1261 0) R_PC 0x3001) 1 1) 1) := by
  rfl

/-- The witness for C17: the state after `ADD R1, R1, #1` from the start
state. -/
theorem cond_invariant_witness :
    cond_valid (demo 0x1261 0) ∧
    cond_valid (update_flags (set_reg (set_reg (demo 0x1261 0) R_PC 0x3001) 1 1) 1) :=
  ⟨Or.inr (Or.inl rfl),
    (cond_invariant silent (demo_memory 0x1261) (fun _ => 0)).2.1
      (demo 0x1261 0) _ (Or.inr (Or.inl rfl)) add_demo_step⟩

/-! ## JSR -/

/-- The step on a JSR word: `R7` receives the incremented PC first, then PC
is set, in the short form from the register file as it is after that write;
`COND` is not written. -/
theorem jsr_step (con : Console) (s : VM) (hop : (fetch con s).1 >>> 12 = OP_JSR) :
    ∃ s', step con s = .next s' ∧
      s'.reg R_COND = s.reg R_COND ∧
      s'.reg R_R7 = (s.reg R_PC + 1) % 65536 ∧
      s'.reg R_PC =
        (if ((fetch con s).1 >>> 11) &&& 1 ≠ 0 then
          (s.reg R_PC + 1 + sign_extend ((fetch con s).1 &&& 0x7FF) 11) % 65536
         else if ((fetch con s).1 >>> 6) &&& 0x7 = R_R7 then (s.reg R_PC + 1) % 65536
         else s.reg (((fetch con s).1 >>> 6) &&& 0x7)) := by
  have hc : (fetch con s).2.reg R_COND = s.reg R_COND :=
    fetch_reg_other con s R_COND (by decide)
  have hpc : (fetch con s).2.reg R_PC = (s.reg R_PC + 1) % 65536 := fetch_reg_pc con s
  unfold step
  rw [execute_jsr con _ _ hop]
  by_cases hl : ((fetch con s).1 >>> 11) &&& 1 ≠ 0
  · rw [if_pos hl, if_pos hl]
    refine ⟨_, rfl, ?_, ?_, ?_⟩
    · rw [set_reg_reg, write_other _ _ _ _ (by decide), set_reg_reg,
        write_other _ _ _ _ (by decide), hc]
    · rw [set_reg_reg, write_other _ _ _ _ (by decide), set_reg_reg, write_same, hpc]
    · rw [set_reg_reg, write_same, set_reg_reg, write_other _ _ _ _ (by decide), hpc]
      simp only [u16]
      omega
  · rw [if_neg hl, if_neg hl]
    refine ⟨_, rfl, ?_, ?_, ?_⟩
    · rw [set_reg_reg, write_other _ _ _ _ (by decide), set_reg_reg,
        write_other _ _ _ _ (by decide), hc]
    · rw [set_reg_reg, write_other _ _ _ _ (by decide), set_reg_reg, write_same, hpc]
    · rw [set_reg_reg, write_same, set_reg_reg]
      by_cases h7 : ((fetch con s).1 >>> 6) &&& 0x7 = R_R7
      · rw [if_pos h7, h7, write_same, hpc]
      · rw [if_neg h7, write_other _ _ _ _ h7, fetch_reg_other _ _ _ (field_ne_pc _)]

/-- C18, as the code has it: `update_flags` is called by ADD, AND, NOT, LD,
LDI, LDR and LEA, after which `COND` is the sign class of the destination
register (in a state of 16-bit words); JSR, in either form, calls no
`update_flags`: after the step `COND` equals `COND` before it, while `R7`
holds the return address. -/
theorem jsr_leaves_cond (con : Console) (s : VM) :
    ((fetch con s).1 >>> 12 = OP_JSR →
      ∃ s', step con s = .next s' ∧ s'.reg R_COND = s.reg R_COND ∧
        s'.reg R_R7 = (s.reg R_PC + 1) % 65536) ∧
    (WF s →
      ((fetch con s).1 >>> 12 = OP_ADD ∨ (fetch con s).1 >>> 12 = OP_AND ∨
        (fetch con s).1 >>> 12 = OP_NOT ∨ (fetch con s).1 >>> 12 = OP_LD ∨
        (fetch con s).1 >>> 12 = OP_LDI ∨ (fetch con s).1 >>> 12 = OP_LDR ∨
        (fetch con s).1 >>> 12 = OP_LEA) →
      ∃ s', step con s = .next s' ∧
        s'.reg R_COND = sign_class (s'.reg (((fetch con s).1 >>> 9) &&& 0x7))) := by
  constructor
  · intro hop
    obtain ⟨s', h1, h2, h3, _⟩ := jsr_step con s hop
    exact ⟨s', h1, h2, h3⟩
  · intro hwf hop
    obtain ⟨X, v, hv, hstep⟩ := flag_write_form con s hwf.1 hop
    refine ⟨_, hstep, ?_⟩
    have hd : (set_reg X (((fetch con s).1 >>> 9) &&& 0x7) v).reg
        (((fetch con s).1 >>> 9) &&& 0x7) = v := by
      rw [set_reg_reg, write_same]
    rw [update_flags_reg _ _ _ (field_ne_cond _), update_flags_cond _ _ (by rw [hd]; exact hv)]

/-- The witness for C18: `JSR #0` (the word `0x4800`) at `0x3000`. -/
theorem jsr_leaves_cond_witness :
    (fetch silent (demo 0x4800 0)).1 >>> 12 = OP_JSR ∧
    ∃ s', step silent (demo 0x4800 0) = .next s' ∧
      s'.reg R_COND = (demo 0x4800 0).reg R_COND ∧
      s'.reg R_R7 = ((demo 0x4800 0).reg R_PC + 1) % 65536 :=
  ⟨by decide, (jsr_leaves_cond silent (demo 0x4800 0)).1 (by decide)⟩

/-- The counterexample to C18 as stated: after `JSR #0` at `0x3000` from the
start state, `R7` holds the positive return address `0x3001` and `COND` is
still ZERO. -/
theorem jsr_leaves_cond_counterexample :
    ¬ ∃ s', step silent (demo 0x4800 0) = .next s' ∧
      s'.reg R_COND = sign_class (s'.reg R_R7) := by
  rintro ⟨s', h, hc⟩
  have e : step silent (demo 0x4800 0) =
      .next (set_reg (set_reg (set_reg (demo 0x4800 0) R_PC 0x3001) R_R7 0x3001)
        R_PC 0x3001) := rfl
  rw [e] at h
  injection h with h
  subst h
  revert hc
  decide

/-! ## TRAP and the flags -/

/-- After `update_flags` on `R0`, `COND` is the sign class of `R0`, and `R7`
is as before. -/
theorem update_flags_r0 (X : VM) (hX : X.reg R_R0 < 65536) :
    (update_flags X R_R0).reg R_COND = sign_class ((update_flags X R_R0).reg R_R0) ∧
    (update_flags X R_R0).reg R_R7 = X.reg R_R7 := by
  refine ⟨?_, update_flags_reg X R_R0 R_R7 (by decide)⟩
  rw [update_flags_reg X R_R0 R_R0 (by decide), update_flags_cond X R_R0 hX]

/-- The routine GETC leaves in `COND` the sign class of the character code it
stored in `R0`, and leaves `R7` alone. -/
theorem trap_getc_regs (con : Console) (s : VM) :
    (trap_getc con s).reg R_COND = sign_class ((trap_getc con s).reg R_R0) ∧
    (trap_getc con s).reg R_R7 = s.reg R_R7 := by
  unfold trap_getc
  have h := update_flags_r0
    { set_reg s R_R0 (u16_of_int (con.getch s.keys)) with keys := s.keys + 1 }
    (by
      show write s.reg R_R0 _ R_R0 < 65536
      rw [write_same]
      exact u16_of_int_lt _)
  refine ⟨h.1, ?_⟩
  rw [h.2]
  exact write_other s.reg R_R0 (u16_of_int (con.getch s.keys)) R_R7 (by decide)

/-- The routine IN leaves in `COND` the sign class of the character code it
stored in `R0`, and leaves `R7` alone. -/
theorem trap_in_regs (con : Console) (s : VM) :
    (trap_in con s).reg R_COND = sign_class ((trap_in con s).reg R_R0) ∧
    (trap_in con s).reg R_R7 = s.reg R_R7 := by
  unfold trap_in
  simp only []
  have h := update_flags_r0
    (set_reg { s with output := s.output ++ in_prompt ++ [u8_of_int (con.getchar s.chars)],
                      chars := s.chars + 1 }
      R_R0 (u16 (u8_of_int (con.getchar s.chars))))
    (by
      rw [set_reg_reg, write_same]
      exact u16_lt _)
  refine ⟨h.1, ?_⟩
  rw [h.2]
  exact write_other s.reg R_R0 (u16 (u8_of_int (con.getchar s.chars))) R_R7 (by decide)

/-- C19, as the code has it: let the fetched word be a TRAP instruction and
`p` the old PC.  For every vector other than GETC (`0x20`) and IN (`0x23`),
whenever the step completes, `COND` equals `COND` before the step and `R7`
holds `(p + 1) mod 65536`; the step completes for every vector other than PUTS
and PUTSP.  For GETC and IN the step completes with `R7` so set and with `COND`
the sign class of the character code stored in `R0`. -/
theorem trap_flags (con : Console) (s : VM) (hop : (fetch con s).1 >>> 12 = OP_TRAP) :
    ((fetch con s).1 &&& 0xFF ≠ TRAP_GETC → (fetch con s).1 &&& 0xFF ≠ TRAP_IN →
      ∀ s', step con s = .next s' →
        s'.reg R_COND = s.reg R_COND ∧ s'.reg R_R7 = (s.reg R_PC + 1) % 65536) ∧
    ((fetch con s).1 &&& 0xFF ≠ TRAP_PUTS → (fetch con s).1 &&& 0xFF ≠ TRAP_PUTSP →
      ∃ s', step con s = .next s') ∧
    (((fetch con s).1 &&& 0xFF = TRAP_GETC ∨ (fetch con s).1 &&& 0xFF = TRAP_IN) →
      ∃ s', step con s = .next s' ∧
        s'.reg R_COND = sign_class (s'.reg R_R0) ∧
        s'.reg R_R7 = (s.reg R_PC + 1) % 65536) := by
  have hc : (set_reg (fetch con s).2 R_R7 ((fetch con s).2.reg R_PC)).reg R_COND =
      s.reg R_COND := by
    rw [set_reg_reg, write_other _ _ _ _ (by decide), fetch_reg_other con s R_COND (by decide)]
  have h7 : (set_reg (fetch con s).2 R_R7 ((fetch con s).2.reg R_PC)).reg R_R7 =
      (s.reg R_PC + 1) % 65536 := by
    rw [set_reg_reg, write_same, fetch_reg_pc]
    rfl
  unfold step
  rw [execute_trap con _ _ hop]
  refine ⟨?_, ?_, ?_⟩
  · intro hg hi s' h
    rw [if_neg hg] at h
    split_ifs at h
    · injection h with h
      subst h
      exact ⟨hc, h7⟩
    · split at h
      · injection h with h
        subst h
        rename_i hs
        rw [trap_puts_reg _ _ hs]
        exact ⟨hc, h7⟩
      · cases h
    · split at h
      · injection h with h
        subst h
        rename_i hs
        rw [trap_putsp_reg _ _ hs]
        exact ⟨hc, h7⟩
      · cases h
    · injection h with h
      subst h
      exact ⟨hc, h7⟩
    · injection h with h
      subst h
      exact ⟨hc, h7⟩
  · intro hp hpp
    rw [if_neg hp, if_neg hpp]
    split_ifs <;> exact ⟨_, rfl⟩
  · intro hv
    rcases hv with hv | hv
    · rw [if_pos hv]
      refine ⟨_, rfl, (trap_getc_regs con _).1, ?_⟩
      rw [(trap_getc_regs con _).2, h7]
    · have hg : ¬ (fetch con s).1 &&& 0xFF = TRAP_GETC := by
        rw [hv]
        decide
      have ho : ¬ (fetch con s).1 &&& 0xFF = TRAP_OUT := by
        rw [hv]
        decide
      have hp : ¬ (fetch con s).1 &&& 0xFF = TRAP_PUTS := by
        rw [hv]
        decide
      rw [if_neg hg, if_neg ho, if_neg hp, if_pos hv]
      refine ⟨_, rfl, (trap_in_regs con _).1, ?_⟩
      rw [(trap_in_regs con _).2, h7]

/-- The witness for C19: `TRAP OUT` (the word `0xF021`) at `0x3000`. -/
theorem trap_flags_witness :
    (fetch silent (demo 0xF021 0)).1 >>> 12 = OP_TRAP ∧
    ((fetch silent (demo 0xF021 0)).1 &&& 0xFF ≠ TRAP_PUTS ∧
      (fetch silent (demo 0xF021 0)).1 &&& 0xFF ≠ TRAP_PUTSP) ∧
    ∃ s', step silent (demo 0xF021 0) = .next s' :=
  ⟨by decide, ⟨by decide, by decide⟩,
    (trap_flags silent (demo 0xF021 0) (by decide)).2.1 (by decide) (by decide)⟩

/-- The counterexample to C19 as stated: `TRAP GETC` at `0x3000` from the
start state (`COND = ZERO`), at a console that returns the letter `a`, leaves
`COND = POSITIVE`. -/
theorem trap_flags_counterexample :
    ¬ ∃ s', step typing (demo 0xF020 0) = .next s' ∧
      s'.reg R_COND = (demo 0xF020 0).reg R_COND := by
  rintro ⟨s', h, hc⟩
  have e : step typing (demo 0xF020 0) =
      .next (trap_getc typing (set_reg (set_reg (demo 0xF020 0) R_PC 0x3001) R_R7 0x3001)) :=
    rfl
  rw [e] at h
  injection h with h
  subst h
  revert hc
  decide

/-! ## JSR through a register -/

/-- C13 at its failing input: `JSRR R7` (the word `0x41C0`) at `0x3000` with
`R7 = 0x4000` leaves `PC = 0x3001`, the return address it has just written to
`R7`, whereas `JMP R7` (the word `0xC1C0`) from the same registers leaves
`PC = 0x4000`, the value `R7` held when the instruction was fetched. -/
theorem jsrr_r7_divergence :
    (∃ s', step silent (set_reg (demo 0x41C0 0) R_R7 0x4000) = .next s' ∧
      s'.reg R_PC = 0x3001 ∧ s'.reg R_R7 = 0x3001) ∧
    (∃ s', step silent (set_reg (demo 0xC1C0 0) R_R7 0x4000) = .next s' ∧
      s'.reg R_PC = 0x4000) :=
  ⟨⟨_, rfl, by decide, by decide⟩, ⟨_, rfl, by decide⟩⟩

/-! ## String traps at the end of memory -/

theorem trap_puts_loop_none (memory : Nat → Nat) :
    ∀ (n c : Nat) (out : List Nat), (∀ j, j < n → memory (c + j) ≠ 0) →
      trap_puts_loop memory n c out = none := by
  intro n
  induction n with
  | zero =>
    intro c out _
    rfl
  | succ n ih =>
    intro c out h
    have h0 : memory c ≠ 0 := by simpa using h 0 (by omega)
    rw [trap_puts_loop, if_pos h0]
    apply ih
    intro j hj
    have := h (j + 1) (by omega)
    rwa [show c + (j + 1) = c + 1 + j by omega] at this

theorem trap_putsp_loop_none (memory : Nat → Nat) :
    ∀ (n c : Nat) (out : List Nat), (∀ j, j < n → memory (c + j) ≠ 0) →
      trap_putsp_loop memory n c out = none := by
  intro n
  induction n with
  | zero =>
    intro c out _
    rfl
  | succ n ih =>
    intro c out h
    have h0 : memory c ≠ 0 := by simpa using h 0 (by omega)
    rw [trap_putsp_loop, if_pos h0]
    apply ih
    intro j hj
    have := h (j + 1) (by omega)
    rwa [show c + (j + 1) = c + 1 + j by omega] at this

/-- When no cell from `R0` up to `0xFFFF` holds zero, the scans of PUTS and
PUTSP read the cell after the last one of the array. -/
theorem string_traps_leave_memory (s : VM)
    (hnz : ∀ a, s.reg R_R0 ≤ a → a ≤ 0xFFFF → s.memory a ≠ 0) :
    trap_puts s = none ∧ trap_putsp s = none := by
  have h : ∀ j, j < MEMORY_MAX - s.reg R_R0 → s.memory (s.reg R_R0 + j) ≠ 0 := by
    intro j hj
    simp only [MEMORY_MAX] at hj
    exact hnz _ (by omega) (by omega)
  constructor
  · unfold trap_puts
    rw [trap_puts_loop_none _ _ _ _ h]
  · unfold trap_putsp
    rw [trap_putsp_loop_none _ _ _ _ h]

/-- C20 at its failing input: with `R0 = 0xFFFF` and a nonzero word in the
cell `0xFFFF`, the scans of PUTS and PUTSP step to the index `0x10000` and
read there, outside the array, instead of wrapping to address `0`; the step
that executes `TRAP PUTS` from this state ends in the out-of-range read. -/
theorem string_trap_past_end :
    trap_puts edge = none ∧ trap_putsp edge = none ∧ step silent edge = .out_of_range :=
  ⟨rfl, rfl, rfl⟩

/-! ## The image loader -/

/-- Swapping the bytes of a big-endian word as the host read it gives the
word. -/
theorem swap16_raw (w : Nat) (hw : w < 65536) : swap16 (w / 256 + 256 * (w % 256)) = w := by
  have h1 : (w / 256 + 256 * (w % 256)) >>> 8 = w % 256 := by
    rw [Nat.shiftRight_eq_div_pow]
    omega
  have h2 : (w / 256 + 256 * (w % 256)) <<< 8 = 2 ^ 8 * (w / 256 + 256 * (w % 256)) := by
    rw [Nat.shiftLeft_eq, Nat.mul_comm]
  have h3 : w % 256 < 2 ^ 8 := by omega
  unfold swap16 u16
  rw [h1, h2, ← Nat.mul_add_lt_is_or h3]
  omega

theorem buffer_words_payload (ws : List Nat) :
    buffer_words (payload_bytes ws) = ws.map (fun w => w / 256 + 256 * (w % 256)) := by
  induction ws with
  | nil => rfl
  | cons w ws ih => simp [payload_bytes, word_bytes, buffer_words, ih]

/-- The memory the copy loop leaves: the swapped buffer words from `p` on, the
old contents elsewhere. -/
theorem load_loop_spec :
    ∀ (l : List Nat) (p : Nat) (memory : Nat → Nat) (a : Nat),
      load_loop memory p l a =
        if p ≤ a ∧ a - p < l.length then swap16 (l.getD (a - p) 0) else memory a := by
  intro l
  induction l with
  | nil =>
    intro p memory a
    simp [load_loop]
  | cons w ws ih =>
    intro p memory a
    rw [load_loop, ih]
    by_cases h1 : a < p
    · rw [if_neg (by omega), if_neg (by omega), write_other _ _ _ _ (by omega)]
    · by_cases h2 : a = p
      · subst h2
        rw [if_neg (by omega), if_pos (by simp), write_same]
        simp
      · by_cases h3 : a - (p + 1) < ws.length
        · rw [if_pos ⟨by omega, h3⟩, if_pos ⟨by omega, by simp only [List.length_cons]; omega⟩,
            show a - p = (a - (p + 1)) + 1 by omega, List.getD_cons_succ]
        · rw [if_neg (fun h => h3 h.2),
            if_neg (fun h => h3 (by have := h.2; simp only [List.length_cons] at this; omega)),
            write_other _ _ _ _ h2]

theorem take_getD (l : List Nat) (k i : Nat) (h : i < k) :
    (l.take k).getD i 0 = l.getD i 0 := by
  rw [List.getD_eq_getElem?_getD, List.getD_eq_getElem?_getD, List.getElem?_take, if_pos h]

/-- For an origin from `1` on, `read_image_file` returns `true` and leaves each
word `w_i` with `origin + i <= 0xFFFF` at `memory[origin + i]` and every other
cell as it was. -/
theorem read_image_file_loads (o : Nat) (ws : List Nat) (memory : Nat → Nat)
    (ho1 : 1 ≤ o) (ho : o < 65536) (hws : ∀ i, ws.getD i 0 < 65536) :
    ∃ m', read_image_file (some (image_bytes o ws)) memory = .loaded m' ∧
      (∀ i, i < ws.length → o + i ≤ 0xFFFF → m' (o + i) = ws.getD i 0) ∧
      (∀ a, (a < o ∨ o + ws.length ≤ a ∨ 0xFFFF < a) → m' a = memory a) := by
  have hread : read_image_file (some (image_bytes o ws)) memory =
      .loaded (load_loop memory o
        ((ws.map (fun w => w / 256 + 256 * (w % 256))).take (65536 - o))) := by
    have e : image_bytes o ws = (o / 256) :: (o % 256) :: payload_bytes ws := rfl
    rw [e]
    simp only [read_image_file, swap16_raw o ho, buffer_words_payload]
    have hm : u16 (MEMORY_MAX - o) = 65536 - o := by
      simp only [u16, MEMORY_MAX]
      omega
    rw [hm]
  refine ⟨_, hread, ?_, ?_⟩
  · intro i hi hle
    have hlen : i < ((ws.map (fun w => w / 256 + 256 * (w % 256))).take (65536 - o)).length := by
      rw [List.length_take, List.length_map]
      omega
    rw [load_loop_spec, if_pos ⟨by omega, by rw [Nat.add_sub_cancel_left]; exact hlen⟩,
      Nat.add_sub_cancel_left, take_getD _ _ _ (by omega)]
    have hz : (0 : Nat) = (fun w => w / 256 + 256 * (w % 256)) 0 := by simp
    rw [hz, List.getD_map, ← hz]
    exact swap16_raw _ (hws i)
  · intro a ha
    rw [load_loop_spec, if_neg]
    rintro ⟨h1, h2⟩
    rw [List.length_take, List.length_map] at h2
    omega

/-- C11 at its failing input: for the origin `0x0000` the `uint16_t` variable
`max_read` is `65536 mod 65536 = 0`, so `read_image_file` returns `true`
without loading a single word, whatever the words of the image and the
memory are; an image with origin `0` and the one word `0x1234` leaves
`memory[0]` as it was, while the same word at origin `0x3000` is loaded. -/
theorem origin_zero_loads_nothing (memory : Nat → Nat) (ws : List Nat) :
    read_image_file (some (image_bytes 0 ws)) memory = .loaded memory ∧
    read_image_file (some (image_bytes 0 [0x1234])) (fun _ => 0) = .loaded (fun _ => 0) ∧
    ∃ m', read_image_file (some (image_bytes 0x3000 [0x1234])) (fun _ => 0) = .loaded m' ∧
      m' 0x3000 = 0x1234 :=
  ⟨rfl, rfl, _, rfl, by decide⟩

end LC3
